import Mathlib

/-!
Verification of the directory discovery and indexing engine of vtk-dicom
(`Source/vtkDICOMDirectory.cxx`) against its natural-language specification.

The development shallowly embeds the data model and the relevant member
functions of `vtkDICOMDirectory`:

* the hierarchical index store (`SeriesItem`/`StudyItem`/`PatientItem`
  vectors) and its append operation `AddSeriesFileNames`;
* the grouping and sorting engine `SortFiles` (cascading comparator,
  working group list, stable per-series sort, flush into the store);
* the DICOMDIR record decoder `ProcessDirectoryFile` (offset-linked record
  traversal with an explicit stack);
* the control decisions at the head of `ProcessDirectory` (visited-path
  check, DICOMDIR error handling).

External collaborators (the header parser, `vtksys` file utilities and the
UID comparison helper from `vtkDICOMUtilities`, none of which are present in
the provided sources) are modelled at their interface boundary: parsed
header fields become explicit record fields, and filesystem answers become
explicit arguments.
-/

namespace DicomDir

/-- One entry of the Series table (source: `struct vtkDICOMDirectory::SeriesItem`,
lines 47-51): a metadata record plus the ordered list of file names.
The metadata record type is abstract (`ρ`), standing for `vtkDICOMItem`. -/
structure SeriesItem (ρ : Type) where
  record : ρ
  files : List String
  deriving Repr, DecidableEq

/-- One entry of the Study table (source: `struct vtkDICOMDirectory::StudyItem`,
lines 53-59): study record, denormalized patient record, and the contiguous
series index range.  The `int` fields are only ever assigned vector sizes. -/
structure StudyItem (ρ : Type) where
  record : ρ
  patientRecord : ρ
  firstSeries : Nat
  lastSeries : Nat
  deriving Repr, DecidableEq

/-- One entry of the Patient table (source: `struct vtkDICOMDirectory::PatientItem`,
lines 61-65): patient record plus the `vtkIntArray` of study indices. -/
structure PatientItem (ρ : Type) where
  record : ρ
  studies : List Int
  deriving Repr, DecidableEq

/-- The hierarchical index store: the three parallel tables owned by
`vtkDICOMDirectory` (members `Patients`, `Studies`, `Series`). -/
structure DirState (ρ : Type) where
  patients : List (PatientItem ρ)
  studies : List (StudyItem ρ)
  series : List (SeriesItem ρ)
  deriving Repr, DecidableEq

/-- The store at the start of a discovery run (`Execute` clears all tables). -/
def emptyState (ρ : Type) : DirState ρ := ⟨[], [], []⟩

/-- Update the element at index `i` of a list, leaving the list unchanged when
the index is out of range (models in-place mutation of a vector element). -/
def modifyAt {α : Type} (i : Nat) (f : α → α) : List α → List α
  | [] => []
  | a :: l =>
    match i with
    | 0 => f a :: l
    | i + 1 => a :: modifyAt i f l

/-- The study phase of `AddSeriesFileNames` (source lines 364-381): append a
new `StudyItem` when `study == n`, extend `LastSeries` of the most recent
study when `study == n-1`, otherwise fail (`none`; the error macro only logs). -/
def addSeriesStudyPhase {ρ : Type} (study : Int) (patientRecord studyRecord : ρ)
    (s : DirState ρ) : Option (DirState ρ) :=
  if study = (s.studies.length : Int) then
    some { s with studies := s.studies ++ [⟨studyRecord, patientRecord, s.series.length, s.series.length⟩] }
  else if 0 ≤ (s.studies.length : Int) ∧ study = (s.studies.length : Int) - 1 then
    some { s with studies := modifyAt study.toNat (fun it => { it with lastSeries := s.series.length }) s.studies }
  else
    none

/-- The patient phase of `AddSeriesFileNames` (source lines 383-412): append a
new `PatientItem` when `patient == m`, otherwise add `study` to patient
`m-1`'s study list if not already present; fail (`none`) on any other index.
`m` is the patient count read at entry of `AddSeriesFileNames`. -/
def addSeriesPatientPhase {ρ : Type} (patient study m : Int) (patientRecord : ρ)
    (s1 : DirState ρ) : Option (DirState ρ) :=
  if patient = m then
    some { s1 with patients := s1.patients ++ [⟨patientRecord, [study]⟩] }
  else if 0 ≤ m ∧ patient = m - 1 then
    some { s1 with patients := modifyAt patient.toNat (fun it => if study ∈ it.studies then it else { it with studies := it.studies ++ [study] }) s1.patients }
  else
    none

/-- Embedding of `vtkDICOMDirectory::AddSeriesFileNames` (source lines
354-418).  The sizes `m`, `n`, `series` are read at entry.  A failing study
phase returns with the store untouched; a failing patient phase returns with
the study mutation already applied; only when both phases succeed is the new
`SeriesItem` appended. -/
def addSeriesFileNames {ρ : Type} (patient study : Int) (files : List String)
    (patientRecord studyRecord seriesRecord : ρ) (s : DirState ρ) : DirState ρ :=
  let m : Int := s.patients.length
  match addSeriesStudyPhase study patientRecord studyRecord s with
  | none => s
  | some s1 =>
    match addSeriesPatientPhase patient study m patientRecord s1 with
    | none => s1
    | some s2 => { s2 with series := s2.series ++ [⟨seriesRecord, files⟩] }

/-- The contiguous-ranges invariant of the study table: starting from series
index `k`, each study's `[firstSeries, lastSeries]` range begins exactly at
`k`, is non-empty (`firstSeries ≤ lastSeries`), and the ranges of successive
studies tile the series indices, ending exactly at `total`. -/
def rangesChain {ρ : Type} : Nat → List (StudyItem ρ) → Nat → Bool
  | k, [], total => k == total
  | k, it :: rest, total =>
    (it.firstSeries == k) && decide (it.firstSeries ≤ it.lastSeries) &&
      rangesChain (it.lastSeries + 1) rest total

/-- The store invariant: the study ranges tile `0 .. series.length - 1`. -/
def storeInv {ρ : Type} (s : DirState ρ) : Prop :=
  rangesChain 0 s.studies s.series.length = true

/-! ### The grouping and sort engine (`SortFiles`, source lines 490-764) -/

/-- Character-wise three-way comparison underlying the `strcmp` model. -/
def charListCmp : List Char → List Char → Int
  | [], [] => 0
  | [], _ :: _ => -1
  | _ :: _, [] => 1
  | a :: as, b :: bs =>
    if a.toNat < b.toNat then -1
    else if b.toNat < a.toNat then 1
    else charListCmp as bs

/-- Sign-style model of the C `strcmp` on the strings handed around by
`SortFiles`: negative when `a` precedes `b`, positive when it follows, zero on
equality.  Only the sign of `strcmp` is ever consulted by the source; byte-wise
comparison of UTF-8 data coincides with code-point-wise comparison. -/
def strcmp (a b : String) : Int :=
  charListCmp a.data b.data

/-- Modelled from the spec: `vtkDICOMUtilities::CompareUIDs` is not among the
provided sources.  Section 4.3 of the spec uses it only as an ordering on
optional UID strings ("compare by study instance UID if both present"), with
absent (null) values distinguished from present ones; the source additionally
relies on its null handling (`studyUID == 0` checks).  It is modelled as an
ordering in which an absent UID precedes any present one and present UIDs are
ordered as strings, so equal UID strings compare equal. -/
def compareUIDs : Option String → Option String → Int
  | none, none => 0
  | none, some _ => -1
  | some _, none => 1
  | some a, some b => strcmp a b

/-- Source `struct vtkDICOMDirectory::FileInfo` (lines 86-90): the instance
number (read as `unsigned int`) and the file name. -/
structure FileInfo where
  instanceNumber : Nat
  fileName : String
  deriving Repr, DecidableEq

/-- Source `vtkDICOMDirectory::CompareInstance` (lines 111-115). -/
def compareInstance (fi1 fi2 : FileInfo) : Prop :=
  fi1.instanceNumber < fi2.instanceNumber

/-- The per-file header fields consulted by `SortFiles`, as produced by the
external parser (`vtkDICOMParser`, outside the provided sources): modelled as
an explicit record per input file.  `none` models an attribute whose
`GetCharData()` is null (absent value); `isDicom`, `pixelDataFound`,
`parserError` and `queryMatched` model `IsDICOMFile`, `GetPixelDataFound`,
`GetErrorCode` and `GetQueryMatched` for that file. -/
structure FileMeta where
  isDicom : Bool
  pixelDataFound : Bool
  parserError : Nat
  queryMatched : Bool
  instanceNumber : Nat
  patientName : Option String
  patientID : Option String
  studyDate : Option String
  studyTime : Option String
  studyUID : Option String
  seriesUID : Option String
  seriesNumber : Nat
  fileName : String
  deriving Repr, DecidableEq

/-- Source `struct vtkDICOMDirectory::SeriesInfo` (lines 92-109), one open
group of the working list.  The three `vtkDICOMItem` records filled by
`FillPatientRecord`/`FillStudyRecord`/`FillSeriesRecord` (projections of the
file's header) are modelled by retaining the header snapshot itself. -/
structure SeriesInfo where
  patientRecord : FileMeta
  patientName : Option String
  patientID : Option String
  studyRecord : FileMeta
  studyDate : Option String
  studyTime : Option String
  studyUID : Option String
  seriesRecord : FileMeta
  seriesUID : Option String
  seriesNumber : Nat
  files : List FileInfo
  queryMatched : Bool
  deriving Repr, DecidableEq

/-- The `unsigned int` subtraction `li->SeriesNumber - seriesNumber` assigned
to the C `int c2` (source line 688): wrap-around at `2^32` reinterpreted as a
signed 32-bit value. -/
def int32OfUnsignedSub (a b : Nat) : Int :=
  let d := ((a : Int) - (b : Int)) % (2 ^ 32 : Int)
  if d < 2 ^ 31 then d else d - 2 ^ 32

/-- Patient level of the cascading comparator (source lines 647-657): `c` is
the ID comparison, but whenever the IDs differ or the file's ID is empty the
name comparison overrides `c` unless the names tie ("Use ID to identify
patient, but use name to sort").  Null names/IDs collapse to `""` (lines
640-641, 648-650). -/
def patientLevelCmp (f : FileMeta) (g : SeriesInfo) : Int :=
  let patientID := f.patientID.getD ""
  let patientName := f.patientName.getD ""
  let patientID2 := g.patientID.getD ""
  let patientName2 := g.patientName.getD ""
  let c := strcmp patientID2 patientID
  if c ≠ 0 ∨ patientID = "" then
    let c2 := strcmp patientName2 patientName
    if c2 = 0 then c else c2
  else c

/-- Study level of the comparator (source lines 660-680): `c` is the UID
comparison; when the UIDs differ or the file's study UID is null, the
date/time fallback `c2` overrides `c` unless it ties.  Note the source reads
the group's `StudyTime`, which insertion never assigns, and compares the
times with operands in the opposite order from the dates. -/
def studyLevelCmp (f : FileMeta) (g : SeriesInfo) : Int :=
  let c := compareUIDs f.studyUID g.studyUID
  if c ≠ 0 ∨ f.studyUID = none then
    let c2 : Int :=
      match f.studyDate, g.studyDate with
      | some studyDate, some studyDate2 =>
        let x := strcmp studyDate2 studyDate
        if x = 0 then
          match g.studyTime, f.studyTime with
          | some studyTime2, some studyTime => strcmp studyTime studyTime2
          | _, _ => 0
        else x
      | _, _ => 0
    if c2 = 0 then c else c2
  else c

/-- Series level of the comparator (source lines 683-690): UID comparison with
the series-number difference as fallback. -/
def seriesLevelCmp (f : FileMeta) (g : SeriesInfo) : Int :=
  let c := compareUIDs f.seriesUID g.seriesUID
  if c ≠ 0 ∨ f.seriesUID = none then
    let c2 := int32OfUnsignedSub g.seriesNumber f.seriesNumber
    if c2 = 0 then c else c2
  else c

/-- The full cascading comparison of a file against an open group (source
lines 646-692): study level only on patient tie, series level only on study
tie. -/
def fileCompare (f : FileMeta) (g : SeriesInfo) : Int :=
  let c := patientLevelCmp f g
  if c = 0 then
    let cs := studyLevelCmp f g
    if cs = 0 then seriesLevelCmp f g else cs
  else c

/-- The `FileInfo` built for a file (source lines 613-616). -/
def toFileInfo (f : FileMeta) : FileInfo :=
  ⟨f.instanceNumber, f.fileName⟩

/-- The fresh group created by `sortedFiles.insert(li, SeriesInfo())` plus the
assignments of source lines 708-719.  `StudyTime` is never assigned there, so
it keeps the default (invalid) value, modelled as `none`. -/
def newGroup (f : FileMeta) (qm : Bool) : SeriesInfo where
  patientRecord := f
  patientName := f.patientName
  patientID := f.patientID
  studyRecord := f
  studyDate := f.studyDate
  studyTime := none
  studyUID := f.studyUID
  seriesRecord := f
  seriesUID := f.seriesUID
  seriesNumber := f.seriesNumber
  files := [toFileInfo f]
  queryMatched := qm

/-- The scan over the working group list for one file (source lines 643-720):
walk the groups in order; at the first group that compares equal while the
file's series UID is present, append the file there; otherwise stop at the
first group comparing greater-or-equal and insert a fresh group before it
(or at the end if no such group exists). -/
def insertFile (f : FileMeta) (qm : Bool) : List SeriesInfo → List SeriesInfo
  | [] => [newGroup f qm]
  | g :: rest =>
    let c := fileCompare f g
    if c = 0 ∧ f.seriesUID.isSome then
      { g with files := g.files ++ [toFileInfo f],
               queryMatched := g.queryMatched || qm } :: rest
    else if 0 ≤ c then
      newGroup f qm :: g :: rest
    else
      g :: insertFile f qm rest

/-- The configuration bits of `vtkDICOMDirectory` consulted by `SortFiles`:
whether a find query was set (`this->Query`), whether `FindLevel` is `IMAGE`,
and `RequirePixelData`. -/
structure SortConfig where
  hasQuery : Bool
  findLevelImage : Bool
  requirePixelData : Bool
  deriving Repr, DecidableEq

/-- One iteration of the file loop of `SortFiles` (source lines 563-721),
threading the working group list and the retained error code: skip non-DICOM
files; on missing pixel data adopt the parser's error code if none is
retained yet and skip when an error is set or pixel data is required; skip
query mismatches at image-level find; otherwise insert into the group list. -/
def processOneFile (cfg : SortConfig) (acc : List SeriesInfo × Nat) (f : FileMeta) :
    List SeriesInfo × Nat :=
  if !f.isDicom then acc
  else
    let err1 := if !f.pixelDataFound then (if acc.2 = 0 then f.parserError else acc.2) else acc.2
    if !f.pixelDataFound && (decide (err1 ≠ 0) || cfg.requirePixelData) then (acc.1, err1)
    else
      let qm := !cfg.hasQuery || f.queryMatched
      if !qm && cfg.findLevelImage then (acc.1, err1)
      else (insertFile f qm acc.1, err1)

/-- The grouping phase of `SortFiles`: fold the file loop over the input,
starting from an empty working list and a clear error code. -/
def groupFiles (cfg : SortConfig) (files : List FileMeta) : List SeriesInfo × Nat :=
  files.foldl (processOneFile cfg) ([], 0)

/-- Stable insertion into an already sorted run: the new element goes after
every element whose instance number is not greater (model of the
`std::stable_sort` contract used with `CompareInstance`). -/
def insertSorted (a : FileInfo) : List FileInfo → List FileInfo
  | [] => [a]
  | b :: l =>
    if a.instanceNumber < b.instanceNumber then a :: b :: l
    else b :: insertSorted a l

/-- Model of `std::stable_sort(v.Files.begin(), v.Files.end(), CompareInstance)`
(source line 736): ascending by instance number, equal elements in original
order. -/
def stableSortFiles (l : List FileInfo) : List FileInfo :=
  l.foldl (fun acc a => insertSorted a acc) []

/-- The flush loop of `SortFiles` (source lines 723-763): skip groups whose
query flag is unset, stable-sort each surviving group's files, bump the
running patient/study counters on a change of patient ID / study UID (with
invalid last-seen values always counting as a change), and append through
`AddSeriesFileNames` with the counters minus one. -/
def flushLoop : Option String → Option String → Int → Int →
    List SeriesInfo → DirState FileMeta → DirState FileMeta
  | _, _, _, _, [], st => st
  | lastPatientID, lastStudyUID, patientCount, studyCount, g :: rest, st =>
    if g.queryMatched then
      let sortedNames := (stableSortFiles g.files).map (fun fi => fi.fileName)
      if lastPatientID = none ∨ g.patientID ≠ lastPatientID then
        flushLoop g.patientID g.studyUID (patientCount + 1) (studyCount + 1) rest
          (addSeriesFileNames patientCount studyCount sortedNames
            g.patientRecord g.studyRecord g.seriesRecord st)
      else if lastStudyUID = none ∨ g.studyUID ≠ lastStudyUID then
        flushLoop lastPatientID g.studyUID patientCount (studyCount + 1) rest
          (addSeriesFileNames (patientCount - 1) studyCount sortedNames
            g.patientRecord g.studyRecord g.seriesRecord st)
      else
        flushLoop lastPatientID lastStudyUID patientCount studyCount rest
          (addSeriesFileNames (patientCount - 1) (studyCount - 1) sortedNames
            g.patientRecord g.studyRecord g.seriesRecord st)
    else
      flushLoop lastPatientID lastStudyUID patientCount studyCount rest st

/-- Embedding of `vtkDICOMDirectory::SortFiles` (source lines 490-764): group
the decodable input files into the working list, then flush the groups into
the index store; returns the new store and the retained error code. -/
def sortFiles (cfg : SortConfig) (files : List FileMeta) (st : DirState FileMeta) :
    DirState FileMeta × Nat :=
  let grouped := groupFiles cfg files
  (flushLoop none none (st.patients.length : Int) (st.studies.length : Int)
    grouped.1 st, grouped.2)


/-! ### Concrete inputs used by the closed counterexample and witness theorems -/

/-- The default configuration of `vtkDICOMDirectory`: no find query,
series-level find, `RequirePixelData` on. -/
def defaultConfig : SortConfig := ⟨false, false, true⟩

/-- A decodable file with patient ID "A" and patient name "Zeta". -/
def fileIdA : FileMeta :=
  ⟨true, true, 0, true, 1, some "Zeta", some "A", none, none, none, some "1", 1, "a.dcm"⟩

/-- A decodable file with patient ID "B" and patient name "Yana". -/
def fileIdB : FileMeta :=
  ⟨true, true, 0, true, 1, some "Yana", some "B", none, none, none, some "2", 1, "b.dcm"⟩

/-- A decodable file of patient "P": study date 20200101, study time 010000,
series UID present, series number 5. -/
def studyTimeFile1 : FileMeta :=
  ⟨true, true, 0, true, 1, some "M", some "P", some "20200101", some "010000", none,
    some "1.2.3", 5, "p1.dcm"⟩

/-- A decodable file of the same patient and study date as `studyTimeFile1`
but a later study time 020000, no series UID, series number 3. -/
def studyTimeFile2 : FileMeta :=
  ⟨true, true, 0, true, 1, some "M", some "P", some "20200101", some "020000", none,
    none, 3, "p2.dcm"⟩

/-- A decodable file without a series instance UID. -/
def noUidFile : FileMeta :=
  ⟨true, true, 0, true, 2, some "Zeta", some "A", none, none, none, none, 1, "n.dcm"⟩


/-- A decodable input file carrying the fixed identification triple
`(pid, suid, serid)`: it passes the DICOM check, its pixel data is found, and
its patient ID, study instance UID and series instance UID equal the triple. -/
def goodFile (pid suid serid : String) (f : FileMeta) : Prop :=
  f.isDicom = true ∧ f.pixelDataFound = true ∧
  f.patientID = some pid ∧ f.studyUID = some suid ∧ f.seriesUID = some serid

/-- A working group carrying the fixed identification triple with its query
flag set. -/
def sameTripleGroup (pid suid serid : String) (g : SeriesInfo) : Prop :=
  g.patientID = some pid ∧ g.studyUID = some suid ∧ g.seriesUID = some serid ∧
  g.queryMatched = true


/-! ### The visited-path check and DICOMDIR control of `ProcessDirectory` -/

/-- The contract of `std::lower_bound` on the sorted visited vector (source
line 938): index of the first element that is not less than the value, or the
length when every element is less. -/
def lowerBoundIdx (x : String) : List String → Nat
  | [] => 0
  | a :: l => if strcmp a x < 0 then lowerBoundIdx x l + 1 else 0

/-- Insertion at a position, the model of `std::vector::insert(iter, value)`. -/
def insertAt {α : Type} : Nat → α → List α → List α
  | 0, x, l => x :: l
  | _ + 1, x, [] => [x]
  | i + 1, x, a :: l => a :: insertAt i x l

/-- The visited-path check at the head of `ProcessDirectory` (source lines
934-948): resolve the directory to its canonical real path (here taken as an
argument, since `GetRealPath` is a filesystem call), find its `lower_bound`
position in the sorted `Visited` vector, then insert and proceed only when
the iterator is at the end or points at an element LESS than the real name —
the literal source condition `viter == end || *viter < realname` — and
otherwise return immediately.  `some` carries the updated visited list when
scanning proceeds; `none` means the early return was taken. -/
def visitedCheck (visited : List String) (realname : String) :
    Option (List String) :=
  match visited.get? (lowerBoundIdx realname visited) with
  | none => some (insertAt (lowerBoundIdx realname visited) realname visited)
  | some v =>
    if strcmp v realname < 0 then
      some (insertAt (lowerBoundIdx realname visited) realname visited)
    else
      none

/-- The control outcome of one `ProcessDirectory` activation up to the point
where directory entries would be listed. -/
inductive ScanOutcome
  | errorReturn (code : Nat)
  | indexProcessed
  | returnedNoScan
  | enumerated
  deriving Repr, DecidableEq

/-- The DICOMDIR and depth control decisions of `ProcessDirectory` (source
lines 958-1008): the DICOMDIR file is probed only when no explicit input file
list was given and `depth == ScanDepth`; a parse failure surfaces as the
retained error (aborting the directory) only when additionally `depth == 0`;
a clean parse consumes the index and returns; every other case falls through
to the `depth <= 0` check and then to plain file-by-file enumeration. -/
def processDirectoryControl (inputFileNamesGiven : Bool) (depth scanDepth : Int)
    (dicomdirFound : Bool) (dicomdirError : Nat) : ScanOutcome :=
  if ¬ inputFileNamesGiven ∧ depth = scanDepth ∧ dicomdirFound then
    if dicomdirError ≠ 0 ∧ depth = 0 then .errorReturn dicomdirError
    else if dicomdirError = 0 then .indexProcessed
    else if depth ≤ 0 then .returnedNoScan
    else .enumerated
  else if depth ≤ 0 then .returnedNoScan
  else .enumerated

/-- A decodable file with identification triple ("P1", "9.8.7", "1.2.3") and
instance number 3. -/
def tripleFileA : FileMeta :=
  ⟨true, true, 0, true, 3, some "N", some "P1", some "20200101", some "010000",
    some "9.8.7", some "1.2.3", 4, "f3.dcm"⟩

/-- Same triple as `tripleFileA`, instance number 1. -/
def tripleFileB : FileMeta :=
  { tripleFileA with instanceNumber := 1, fileName := "f1.dcm" }

/-- Same triple as `tripleFileA`, instance number 2. -/
def tripleFileC : FileMeta :=
  { tripleFileA with instanceNumber := 2, fileName := "f2.dcm" }


/-! ### The DICOMDIR record decoder (`ProcessDirectoryFile`, source lines 767-928) -/

/-- One item of the `DirectoryRecordSequence` as consulted by the decoder: its
byte offset, the offset of the next record at the same level, the offset of
the first lower-level record, the `DirectoryRecordType` string, and the
`ReferencedFileID` path components (`none` models an invalid value). -/
structure Rec where
  byteOffset : Nat
  nextOffset : Nat
  childOffset : Nat
  recordType : String
  fileID : Option (List String)
  deriving Repr, DecidableEq

/-- The record used when an index has never been assigned (`items[0]` for the
initial `patientItem`/`studyItem`/`seriesItem` values 0). -/
def defaultRec : Rec := ⟨0, 0, 0, "", none⟩

/-- The consumed marker `0xffffffff` (source line 839). -/
def consumedMark : Nat := 4294967295

/-- Insert-or-assign on the offset-to-index association list, the behavior of
`offsetToIndexMap[key] = value` on `std::map` (and of the in-place
`iter->second = 0xffffffff` marking). -/
def mapSet : List (Nat × Nat) → Nat → Nat → List (Nat × Nat)
  | [], k, v => [(k, v)]
  | p :: m, k, v => if p.1 = k then (k, v) :: m else p :: mapSet m k v

/-- Lookup in the offset-to-index association list (`offsetToIndexMap.find`). -/
def mapFind (m : List (Nat × Nat)) (k : Nat) : Option Nat :=
  (m.find? (fun p => p.1 = k)).map (fun p => p.2)

/-- Building the offset-to-index map (source lines 785-789): for each index in
order, `offsetToIndexMap[items[i].GetByteOffset()] = i`. -/
def buildMapAux : Nat → List Rec → List (Nat × Nat) → List (Nat × Nat)
  | _, [], m => m
  | i, r :: rest, m => buildMapAux (i + 1) rest (mapSet m r.byteOffset i)

/-- The offset-to-index map of a record sequence. -/
def buildMap (items : List Rec) : List (Nat × Nat) :=
  buildMapAux 0 items []

/-- Model of `vtksys::SystemTools::JoinPath` on split components. -/
def joinPath (parts : List String) : String :=
  String.intercalate "/" parts

/-- Number of entries of the map not yet marked consumed (used as the
termination measure of the traversal: each resolved record is marked). -/
def liveCount (m : List (Nat × Nat)) : Nat :=
  (m.filter (fun p => p.2 ≠ consumedMark)).length

/-- The active-ancestor update of the traversal (source lines 850-861):
`patientItem = j` when a PATIENT record is met, and similarly for STUDY and
SERIES; the embedding stores the record itself rather than its index. -/
def updRec (ty : String) (r cur : Rec) : Rec :=
  if r.recordType = ty then r else cur

/-- The file-name accumulation of the traversal (source lines 862-879): a
record that is none of PATIENT/STUDY/SERIES and is an IMAGE record (or any
leaf when pixel data is not required) appends its referenced file path,
joined onto the directory prefix, when the file ID is valid and non-empty. -/
def updFiles (requirePixelData : Bool) (path : List String) (r : Rec)
    (fns : List String) : List String :=
  if r.recordType = "PATIENT" ∨ r.recordType = "STUDY" ∨
      r.recordType = "SERIES" then fns
  else if r.recordType = "IMAGE" ∨ ¬ requirePixelData then
    match r.fileID with
    | some comps =>
      if 0 < comps.length then fns ++ [joinPath (path ++ comps)] else fns
    | none => fns
  else fns

theorem liveCount_mapSet_lt {m : List (Nat × Nat)} {k j : Nat}
    (hf : mapFind m k = some j) (hj : j ≠ consumedMark) :
    liveCount (mapSet m k consumedMark) < liveCount m := by
  induction m with
  | nil => simp [mapFind] at hf
  | cons p m ih =>
    by_cases hpk : p.1 = k
    · have hj2 : p.2 = j := by
        unfold mapFind at hf
        rw [List.find?_cons_of_pos _ (by simpa using hpk)] at hf
        simpa using hf
      have h1 : liveCount ((k, consumedMark) :: m) = liveCount m := by
        unfold liveCount
        rw [List.filter_cons, if_neg (by simp)]
      have h2 : liveCount (p :: m) = liveCount m + 1 := by
        unfold liveCount
        rw [List.filter_cons, if_pos (by simp [hj2, hj])]
        rfl
      simp only [mapSet, if_pos hpk]
      rw [h1, h2]
      omega
    · have hf2 : mapFind m k = some j := by
        unfold mapFind at hf ⊢
        rw [List.find?_cons_of_neg _ (by simpa using hpk)] at hf
        exact hf
      have hlt := ih hf2
      simp only [mapSet, if_neg hpk]
      unfold liveCount
      rw [List.filter_cons, List.filter_cons]
      by_cases hp2 : p.2 = consumedMark
      · rw [if_neg (by simp [hp2]), if_neg (by simp [hp2])]
        exact hlt
      · rw [if_pos (by simp [hp2]), if_pos (by simp [hp2])]
        exact Nat.succ_lt_succ hlt

/-- The offset-chasing loop of `ProcessDirectoryFile` (source lines 828-927),
written as a recursion in which the `while (offset == 0 && stack nonempty)`
pop loop takes one frame per call.  State: the offset map with consumed marks,
the current offset, the explicit stack of `(next offset, entry type)` pairs,
the running patient/study indices, the active PATIENT/STUDY/SERIES records,
the file names of the current series, the index store, and the captured file
list (used instead of the store when `cap` is true, i.e. when a `files` list
was passed).  A `0` offset with an empty stack terminates; a `0` offset pops
one frame, counting PATIENT/STUDY boundaries and flushing a series on a
SERIES frame; a non-zero offset resolves the record through the map (already
consumed or unknown offsets fall through to the pop handling, as in the
source where the lookup failure leaves `offset = 0`), marks it consumed, and
either descends to its child (pushing the next offset and type) or continues
at its next offset. -/
def dirLoop (items : List Rec) (path : List String) (requirePixelData : Bool)
    (cap : Bool) (dmap : List (Nat × Nat)) (offset : Nat)
    (stack : List (Nat × String)) (pIdx sIdx : Int) (pRec stRec serRec : Rec)
    (fileNames : List String) (st : DirState Rec) (captured : List String) :
    DirState Rec × List String :=
  if h0 : offset = 0 then
    match stack with
    | [] => (st, captured)
    | (off2, ty) :: rest =>
      if ty = "PATIENT" then
        dirLoop items path requirePixelData cap dmap off2 rest (pIdx + 1) sIdx
          pRec stRec serRec fileNames st captured
      else if ty = "STUDY" then
        dirLoop items path requirePixelData cap dmap off2 rest pIdx (sIdx + 1)
          pRec stRec serRec fileNames st captured
      else if ty = "SERIES" then
        if cap then
          dirLoop items path requirePixelData cap dmap off2 rest pIdx sIdx
            pRec stRec serRec [] st (captured ++ fileNames)
        else
          dirLoop items path requirePixelData cap dmap off2 rest pIdx sIdx
            pRec stRec serRec []
            (addSeriesFileNames pIdx sIdx fileNames pRec stRec serRec st)
            captured
      else
        dirLoop items path requirePixelData cap dmap off2 rest pIdx sIdx
          pRec stRec serRec fileNames st captured
  else
    match hf : mapFind dmap offset with
    | none =>
      dirLoop items path requirePixelData cap dmap 0 stack pIdx sIdx
        pRec stRec serRec fileNames st captured
    | some j =>
      if hj : j = consumedMark then
        dirLoop items path requirePixelData cap dmap 0 stack pIdx sIdx
          pRec stRec serRec fileNames st captured
      else
        if (items.getD j defaultRec).childOffset ≠ 0 then
          dirLoop items path requirePixelData cap
            (mapSet dmap offset consumedMark)
            (items.getD j defaultRec).childOffset
            (((items.getD j defaultRec).nextOffset,
              (items.getD j defaultRec).recordType) :: stack)
            pIdx sIdx
            (updRec "PATIENT" (items.getD j defaultRec) pRec)
            (updRec "STUDY" (items.getD j defaultRec) stRec)
            (updRec "SERIES" (items.getD j defaultRec) serRec)
            (updFiles requirePixelData path (items.getD j defaultRec) fileNames)
            st captured
        else
          dirLoop items path requirePixelData cap
            (mapSet dmap offset consumedMark)
            (items.getD j defaultRec).nextOffset stack
            pIdx sIdx
            (updRec "PATIENT" (items.getD j defaultRec) pRec)
            (updRec "STUDY" (items.getD j defaultRec) stRec)
            (updRec "SERIES" (items.getD j defaultRec) serRec)
            (updFiles requirePixelData path (items.getD j defaultRec) fileNames)
            st captured
  termination_by (liveCount dmap, stack.length, if offset = 0 then 0 else 1)
  decreasing_by
  all_goals simp_wf
  all_goals first
    | (apply Prod.Lex.right
       apply Prod.Lex.left
       omega)
    | (apply Prod.Lex.right
       apply Prod.Lex.right
       simp [h0])
    | (apply Prod.Lex.left
       exact liveCount_mapSet_lt hf hj)

/-- Embedding of `vtkDICOMDirectory::ProcessDirectoryFile` (source lines
767-928).  The directory name is passed already split into components (with
any trailing empty component removed), the root offset is the value of
`OffsetOfTheFirstDirectoryRecordOfTheRootDirectoryEntity`, and `cap` tells
whether a capture list (`files != 0`) was supplied.  The initial
patient/study indices are the store's current counts, the initial active
records model the index-0 initialization of `patientItem`/`studyItem`/
`seriesItem`, and a zero root offset falls back to the first item's offset
when the sequence is non-empty (source lines 798-801). -/
def processDirectoryFile (path : List String) (requirePixelData : Bool)
    (rootOffset : Nat) (items : List Rec) (cap : Bool) (st : DirState Rec) :
    DirState Rec × List String :=
  dirLoop items path requirePixelData cap (buildMap items)
    (if rootOffset = 0 ∧ 0 < items.length then
      (items.getD 0 defaultRec).byteOffset
    else rootOffset)
    [] (st.patients.length : Int) (st.studies.length : Int)
    (items.getD 0 defaultRec) (items.getD 0 defaultRec)
    (items.getD 0 defaultRec) [] st []

/-! ### Offset-linked encodings of record trees -/

/-- Abstract series content: the referenced file names of its image records. -/
structure SeriesT where
  images : List String
  deriving Repr, DecidableEq

/-- Abstract study content: its series. -/
structure StudyT where
  series : List SeriesT
  deriving Repr, DecidableEq

/-- Abstract patient content: its studies. -/
structure PatientT where
  studies : List StudyT
  deriving Repr, DecidableEq

/-- Number of records encoding one series: the SERIES record plus one IMAGE
record per file. -/
def seriesSize (s : SeriesT) : Nat := 1 + s.images.length

/-- Number of records encoding one study. -/
def studySize (t : StudyT) : Nat := 1 + (t.series.map seriesSize).sum

/-- Number of records encoding one patient. -/
def patientSize (p : PatientT) : Nat := 1 + (p.studies.map studySize).sum

/-- Offset-linked encoding of an IMAGE chain: consecutive offsets starting at
`off`, each record pointing to the next (0 at the end), no children. -/
def encImages (off : Nat) : List String → List Rec
  | [] => []
  | nm :: rest =>
    ⟨off, if rest = [] then 0 else off + 1, 0, "IMAGE", some [nm]⟩ ::
      encImages (off + 1) rest

/-- Offset-linked encoding of a SERIES chain: each SERIES record is followed
by its image records, its child offset is the first image (0 when none), and
its next offset is the following series (0 at the end). -/
def encSeriesChain (off : Nat) : List SeriesT → List Rec
  | [] => []
  | s :: rest =>
    ⟨off, if rest = [] then 0 else off + seriesSize s,
      if s.images = [] then 0 else off + 1, "SERIES", none⟩ ::
      (encImages (off + 1) s.images ++
        encSeriesChain (off + seriesSize s) rest)

/-- Offset-linked encoding of a STUDY chain. -/
def encStudyChain (off : Nat) : List StudyT → List Rec
  | [] => []
  | t :: rest =>
    ⟨off, if rest = [] then 0 else off + studySize t,
      if t.series = [] then 0 else off + 1, "STUDY", none⟩ ::
      (encSeriesChain (off + 1) t.series ++
        encStudyChain (off + studySize t) rest)

/-- Offset-linked encoding of a PATIENT chain; with the starting offset this
is the full well-formed record sequence of a record tree, in depth-first
document order. -/
def encPatientChain (off : Nat) : List PatientT → List Rec
  | [] => []
  | p :: rest =>
    ⟨off, if rest = [] then 0 else off + patientSize p,
      if p.studies = [] then 0 else off + 1, "PATIENT", none⟩ ::
      (encStudyChain (off + 1) p.studies ++
        encPatientChain (off + patientSize p) rest)

/-- The uniform record tree of the spec's decoding property: `P` patients,
each with `S` studies, each with `N` series, each with `F` image records. -/
def uniformForest (P S N F : Nat) : List PatientT :=
  List.replicate P ⟨List.replicate S ⟨List.replicate N ⟨List.replicate F "im"⟩⟩⟩

/-- Consecutive offsets `off, off+1, ..., off+n-1`. -/
def offRange : Nat → Nat → List Nat
  | _, 0 => []
  | off, n + 1 => off :: offRange (off + 1) n

/-- Marking a set of offsets consumed, in order. -/
def consumeKeys (ks : List Nat) (m : List (Nat × Nat)) : List (Nat × Nat) :=
  ks.foldl (fun m k => mapSet m k consumedMark) m

/-- A record is resolvable through the map: its offset is mapped to a live
index holding exactly that record. -/
def fetches (items : List Rec) (dmap : List (Nat × Nat)) (r : Rec) : Prop :=
  ∃ j, mapFind dmap r.byteOffset = some j ∧ j ≠ consumedMark ∧
    items.get? j = some r

/-- Every record of a fragment is resolvable. -/
def hasAll (items : List Rec) (dmap : List (Nat × Nat))
    (recs : List Rec) : Prop :=
  ∀ r ∈ recs, fetches items dmap r

/-! ### Theorems -/

theorem rangesChain_append_new {ρ : Type} (r pr : ρ) :
    ∀ (l : List (StudyItem ρ)) (k total : Nat), rangesChain k l total = true →
      rangesChain k (l ++ [⟨r, pr, total, total⟩]) (total + 1) = true := by
  intro l
  induction l with
  | nil =>
    intro k total h
    simp only [rangesChain, beq_iff_eq] at h
    simp [rangesChain, h]
  | cons it rest ih =>
    intro k total h
    simp only [rangesChain, Bool.and_eq_true, beq_iff_eq, decide_eq_true_eq] at h
    obtain ⟨⟨h1, h2⟩, h3⟩ := h
    simp only [List.cons_append, rangesChain, Bool.and_eq_true, beq_iff_eq,
      decide_eq_true_eq]
    exact ⟨⟨h1, h2⟩, ih _ _ h3⟩

theorem rangesChain_extend_last {ρ : Type} :
    ∀ (l : List (StudyItem ρ)) (it : StudyItem ρ) (k total : Nat),
      rangesChain k (l ++ [it]) total = true →
      rangesChain k (l ++ [{ it with lastSeries := total }]) (total + 1) = true := by
  intro l
  induction l with
  | nil =>
    intro it k total h
    simp only [List.nil_append, rangesChain, Bool.and_eq_true, beq_iff_eq,
      decide_eq_true_eq] at h
    obtain ⟨⟨h1, h2⟩, h3⟩ := h
    have htot : it.lastSeries + 1 = total := by
      simpa [rangesChain] using h3
    simp only [List.nil_append, rangesChain, Bool.and_eq_true, beq_iff_eq,
      decide_eq_true_eq]
    refine ⟨⟨h1, ?_⟩, by simp [rangesChain]⟩
    omega
  | cons a rest ih =>
    intro it k total h
    simp only [List.cons_append, rangesChain, Bool.and_eq_true, beq_iff_eq,
      decide_eq_true_eq] at h
    obtain ⟨⟨h1, h2⟩, h3⟩ := h
    simp only [List.cons_append, rangesChain, Bool.and_eq_true, beq_iff_eq,
      decide_eq_true_eq]
    exact ⟨⟨h1, h2⟩, ih _ _ _ h3⟩

theorem modifyAt_append_last {α : Type} (f : α → α) :
    ∀ (l : List α) (a : α), modifyAt l.length f (l ++ [a]) = l ++ [f a] := by
  intro l
  induction l with
  | nil => intro a; simp [modifyAt]
  | cons b rest ih => intro a; simp [modifyAt, ih]

theorem list_concat_split {α : Type} (l : List α) (h : 1 ≤ l.length) :
    ∃ init last, l = init ++ [last] := by
  rcases List.eq_nil_or_concat l with hnil | ⟨init, last, hc⟩
  · rw [hnil] at h; simp at h
  · exact ⟨init, last, by simpa using hc⟩

theorem patientPhase_valid {ρ : Type} (patient study : Int) (pr : ρ)
    (s1 : DirState ρ) (m : Int) (hm : 0 ≤ m)
    (hp : patient = m ∨ patient = m - 1) :
    ∃ s2, addSeriesPatientPhase patient study m pr s1 = some s2 ∧
      s2.studies = s1.studies ∧ s2.series = s1.series := by
  by_cases hpm : patient = m
  · unfold addSeriesPatientPhase
    rw [if_pos hpm]
    exact ⟨_, rfl, rfl, rfl⟩
  · have hp1 : patient = m - 1 := by tauto
    unfold addSeriesPatientPhase
    rw [if_neg hpm, if_pos (And.intro hm hp1)]
    exact ⟨_, rfl, rfl, rfl⟩

theorem patientPhase_invalid {ρ : Type} (patient study : Int) (pr : ρ)
    (s1 : DirState ρ) (m : Int)
    (hp : patient ≠ m ∧ patient ≠ m - 1) :
    addSeriesPatientPhase patient study m pr s1 = none := by
  unfold addSeriesPatientPhase
  simp [hp.1, hp.2]

theorem studyPhase_new {ρ : Type} (study : Int) (pr sr : ρ) (s : DirState ρ)
    (hn : study = (s.studies.length : Int)) :
    addSeriesStudyPhase study pr sr s =
      some { s with studies :=
        s.studies ++ [⟨sr, pr, s.series.length, s.series.length⟩] } := by
  unfold addSeriesStudyPhase
  simp [hn]

theorem studyPhase_cont {ρ : Type} (study : Int) (pr sr : ρ) (s : DirState ρ)
    (init : List (StudyItem ρ)) (last : StudyItem ρ)
    (hsplit : s.studies = init ++ [last])
    (hn : study = (s.studies.length : Int) - 1) :
    addSeriesStudyPhase study pr sr s =
      some { s with studies :=
        init ++ [{ last with lastSeries := s.series.length }] } := by
  have hlen : s.studies.length = init.length + 1 := by simp [hsplit]
  have hne : study ≠ (s.studies.length : Int) := by omega
  have h0 : (0:Int) ≤ (s.studies.length : Int) := by omega
  have htn : study.toNat = init.length := by omega
  have hmod : modifyAt study.toNat
      (fun it => { it with lastSeries := s.series.length }) s.studies =
      init ++ [{ last with lastSeries := s.series.length }] := by
    rw [hsplit, htn, modifyAt_append_last]
  unfold addSeriesStudyPhase
  rw [if_neg hne, if_pos (And.intro h0 hn), hmod]

theorem studyPhase_invalid {ρ : Type} (study : Int) (pr sr : ρ) (s : DirState ρ)
    (h : study ≠ (s.studies.length : Int) ∧ study ≠ (s.studies.length : Int) - 1) :
    addSeriesStudyPhase study pr sr s = none := by
  unfold addSeriesStudyPhase
  simp [h.1, h.2]

theorem studyPhase_preserves {ρ : Type} {study : Int} {pr sr : ρ}
    {s s1 : DirState ρ} (h : addSeriesStudyPhase study pr sr s = some s1) :
    s1.series = s.series ∧ s1.patients = s.patients := by
  unfold addSeriesStudyPhase at h
  split at h
  · cases h; exact ⟨rfl, rfl⟩
  · split at h
    · cases h; exact ⟨rfl, rfl⟩
    · cases h

/-- C2: a call to `AddSeriesFileNames` whose study argument is neither the
study count `n` nor `n-1`, or whose patient argument is neither the patient
count `m` nor `m-1`, appends no `SeriesItem`; in particular a call with study
argument `n + 2` leaves the whole store unchanged. -/
theorem addSeries_invalid_args_appends_nothing {ρ : Type} (patient study : Int)
    (files : List String) (pr sr xr : ρ) (s : DirState ρ)
    (h : (study ≠ (s.studies.length : Int) ∧ study ≠ (s.studies.length : Int) - 1) ∨
         (patient ≠ (s.patients.length : Int) ∧ patient ≠ (s.patients.length : Int) - 1)) :
    (addSeriesFileNames patient study files pr sr xr s).series = s.series ∧
    (study = (s.studies.length : Int) + 2 →
      addSeriesFileNames patient study files pr sr xr s = s) := by
  rcases h with ⟨h1, h2⟩ | ⟨h1, h2⟩
  · have hnone := studyPhase_invalid study pr sr s ⟨h1, h2⟩
    constructor
    · simp only [addSeriesFileNames, hnone]
    · intro _
      simp only [addSeriesFileNames, hnone]
  · constructor
    · cases hsp : addSeriesStudyPhase study pr sr s with
      | none => simp only [addSeriesFileNames, hsp]
      | some s1 =>
        have hser := (studyPhase_preserves hsp).1
        simp only [addSeriesFileNames, hsp,
          patientPhase_invalid patient study pr s1 (s.patients.length : Int) ⟨h1, h2⟩]
        exact hser
    · intro hst
      have hs1 : study ≠ (s.studies.length : Int) := by omega
      have hs2 : study ≠ (s.studies.length : Int) - 1 := by omega
      simp only [addSeriesFileNames, studyPhase_invalid study pr sr s ⟨hs1, hs2⟩]

/-- Witness for C2 at a concrete store and arguments. -/
theorem addSeries_invalid_args_appends_nothing_witness :
    (addSeriesFileNames 0 2 ["f"] 0 0 0 (emptyState Nat)).series =
      (emptyState Nat).series ∧
    (2 = ((emptyState Nat).studies.length : Int) + 2 →
      addSeriesFileNames 0 2 ["f"] 0 0 0 (emptyState Nat) = emptyState Nat) :=
  addSeries_invalid_args_appends_nothing 0 2 ["f"] 0 0 0 (emptyState Nat)
    (Or.inl (by decide))

/-- C3: every successful `AddSeriesFileNames` call (valid study and patient
arguments) preserves the contiguous-ranges invariant of the study table,
appends exactly one series, creates a new study with
`firstSeries = lastSeries = ` the current series count when `study = n`, and
only extends the last study's `lastSeries` to the new series index when
`study = n - 1`. -/
theorem addSeries_preserves_ranges {ρ : Type} (patient study : Int)
    (files : List String) (pr sr xr : ρ) (s : DirState ρ)
    (hinv : storeInv s)
    (hstudy : study = (s.studies.length : Int) ∨
      (study = (s.studies.length : Int) - 1 ∧ 1 ≤ s.studies.length))
    (hpat : patient = (s.patients.length : Int) ∨
      (patient = (s.patients.length : Int) - 1 ∧ 1 ≤ s.patients.length)) :
    storeInv (addSeriesFileNames patient study files pr sr xr s) ∧
    (addSeriesFileNames patient study files pr sr xr s).series.length =
      s.series.length + 1 ∧
    (study = (s.studies.length : Int) →
      (addSeriesFileNames patient study files pr sr xr s).studies =
        s.studies ++ [⟨sr, pr, s.series.length, s.series.length⟩]) ∧
    (study = (s.studies.length : Int) - 1 ∧ 1 ≤ s.studies.length →
      ∃ init last, s.studies = init ++ [last] ∧
        (addSeriesFileNames patient study files pr sr xr s).studies =
          init ++ [{ last with lastSeries := s.series.length }]) := by
  have hm : (0:Int) ≤ (s.patients.length : Int) := by omega
  have hp : patient = (s.patients.length : Int) ∨
      patient = (s.patients.length : Int) - 1 := by tauto
  rcases hstudy with hn | ⟨hn1, hn2⟩
  · -- new study
    obtain ⟨s2, hps, h2st, h2se⟩ :=
      patientPhase_valid patient study pr
        { s with studies := s.studies ++ [⟨sr, pr, s.series.length, s.series.length⟩] }
        (s.patients.length : Int) hm hp
    have heq : addSeriesFileNames patient study files pr sr xr s =
        { s2 with series := s2.series ++ [⟨xr, files⟩] } := by
      simp only [addSeriesFileNames, studyPhase_new study pr sr s hn, hps]
    rw [heq]
    refine ⟨?_, ?_, ?_, ?_⟩
    · have hnew := rangesChain_append_new sr pr s.studies 0 s.series.length hinv
      unfold storeInv
      simp only [h2st, h2se]
      simpa using hnew
    · simp [h2se]
    · intro _
      exact h2st
    · intro ⟨hc, _⟩
      omega
  · -- continuing study
    obtain ⟨init, last, hsplit⟩ := list_concat_split s.studies hn2
    obtain ⟨s2, hps, h2st, h2se⟩ :=
      patientPhase_valid patient study pr
        { s with studies := init ++ [{ last with lastSeries := s.series.length }] }
        (s.patients.length : Int) hm hp
    have heq : addSeriesFileNames patient study files pr sr xr s =
        { s2 with series := s2.series ++ [⟨xr, files⟩] } := by
      simp only [addSeriesFileNames, studyPhase_cont study pr sr s init last hsplit hn1,
        hps]
    rw [heq]
    refine ⟨?_, ?_, ?_, ?_⟩
    · have hbase := rangesChain_extend_last init last 0 s.series.length
      rw [← hsplit] at hbase
      have hext := hbase hinv
      unfold storeInv
      simp only [h2st, h2se]
      simpa using hext
    · simp [h2se]
    · intro hc; omega
    · intro _
      exact ⟨init, last, hsplit, h2st⟩

/-- Witness for C3: a successful call on a concrete valid store. -/
theorem addSeries_preserves_ranges_witness :
    storeInv (addSeriesFileNames 0 0 ["f"] 0 0 0 (emptyState Nat)) ∧
    (addSeriesFileNames 0 0 ["f"] 0 0 0 (emptyState Nat)).series.length =
      (emptyState Nat).series.length + 1 ∧
    (0 = ((emptyState Nat).studies.length : Int) →
      (addSeriesFileNames 0 0 ["f"] 0 0 0 (emptyState Nat)).studies =
        (emptyState Nat).studies ++ [⟨0, 0, 0, 0⟩]) ∧
    (0 = ((emptyState Nat).studies.length : Int) - 1 ∧ 1 ≤ (emptyState Nat).studies.length →
      ∃ init last, (emptyState Nat).studies = init ++ [last] ∧
        (addSeriesFileNames 0 0 ["f"] 0 0 0 (emptyState Nat)).studies =
          init ++ [{ last with lastSeries := (emptyState Nat).series.length }]) :=
  addSeries_preserves_ranges 0 0 ["f"] 0 0 0 (emptyState Nat) (by rfl)
    (Or.inl (by decide)) (Or.inl (by decide))

/-- C10: when the study argument is valid but the patient argument is invalid,
`AddSeriesFileNames` appends no series and leaves the patient table alone, yet
the study-table mutation persists: afterwards the last study's `lastSeries`
equals the series count, an index one past the end of the series table. -/
theorem addSeries_invalid_patient_partial_mutation {ρ : Type} (patient study : Int)
    (files : List String) (pr sr xr : ρ) (s : DirState ρ)
    (hstudy : study = (s.studies.length : Int) ∨
      (study = (s.studies.length : Int) - 1 ∧ 1 ≤ s.studies.length))
    (hpat : patient ≠ (s.patients.length : Int) ∧
      patient ≠ (s.patients.length : Int) - 1) :
    (addSeriesFileNames patient study files pr sr xr s).series = s.series ∧
    (addSeriesFileNames patient study files pr sr xr s).patients = s.patients ∧
    (study = (s.studies.length : Int) →
      (addSeriesFileNames patient study files pr sr xr s).studies =
        s.studies ++ [⟨sr, pr, s.series.length, s.series.length⟩]) ∧
    (∃ init last,
      (addSeriesFileNames patient study files pr sr xr s).studies = init ++ [last] ∧
      last.lastSeries = s.series.length ∧
      (addSeriesFileNames patient study files pr sr xr s).series.length ≤
        last.lastSeries) := by
  rcases hstudy with hn | ⟨hn1, hn2⟩
  · have heq : addSeriesFileNames patient study files pr sr xr s =
        { s with studies :=
            s.studies ++ [⟨sr, pr, s.series.length, s.series.length⟩] } := by
      simp only [addSeriesFileNames, studyPhase_new study pr sr s hn,
        patientPhase_invalid patient study pr _ _ hpat]
    rw [heq]
    refine ⟨rfl, rfl, fun _ => rfl, ?_⟩
    exact ⟨s.studies, ⟨sr, pr, s.series.length, s.series.length⟩, rfl, rfl, le_refl _⟩
  · obtain ⟨init, last, hsplit⟩ := list_concat_split s.studies hn2
    have hne : study ≠ (s.studies.length : Int) := by omega
    have heq : addSeriesFileNames patient study files pr sr xr s =
        { s with studies :=
            init ++ [{ last with lastSeries := s.series.length }] } := by
      simp only [addSeriesFileNames, studyPhase_cont study pr sr s init last hsplit hn1,
        patientPhase_invalid patient study pr _ _ hpat]
    rw [heq]
    refine ⟨rfl, rfl, fun hc => absurd hc hne, ?_⟩
    exact ⟨init, { last with lastSeries := s.series.length }, rfl, rfl, le_refl _⟩

/-- Witness for C10: valid new-study index, invalid patient index, on a
concrete store; the study table gains a dangling entry. -/
theorem addSeries_invalid_patient_partial_mutation_witness :
    (addSeriesFileNames 5 0 ["f"] 0 0 0 (emptyState Nat)).series =
      (emptyState Nat).series ∧
    (addSeriesFileNames 5 0 ["f"] 0 0 0 (emptyState Nat)).patients =
      (emptyState Nat).patients ∧
    (0 = ((emptyState Nat).studies.length : Int) →
      (addSeriesFileNames 5 0 ["f"] 0 0 0 (emptyState Nat)).studies =
        (emptyState Nat).studies ++ [⟨0, 0, 0, 0⟩]) ∧
    (∃ init last,
      (addSeriesFileNames 5 0 ["f"] 0 0 0 (emptyState Nat)).studies = init ++ [last] ∧
      last.lastSeries = (emptyState Nat).series.length ∧
      (addSeriesFileNames 5 0 ["f"] 0 0 0 (emptyState Nat)).series.length ≤
        last.lastSeries) :=
  addSeries_invalid_patient_partial_mutation 5 0 ["f"] 0 0 0 (emptyState Nat)
    (Or.inl (by decide)) (by decide)


/-! ### Theorems about the grouping comparator and working list -/

theorem charListCmp_self : ∀ l : List Char, charListCmp l l = 0 := by
  intro l
  induction l with
  | nil => rfl
  | cons a l ih => simp [charListCmp, ih]

theorem strcmp_self (a : String) : strcmp a a = 0 := by
  unfold strcmp
  exact charListCmp_self a.data

theorem char_eq_of_toNat_eq {a b : Char} (h : a.toNat = b.toNat) : a = b := by
  unfold Char.toNat at h
  exact Char.ext (by exact UInt32.toNat.inj h)

theorem charListCmp_eq_zero :
    ∀ l1 l2 : List Char, charListCmp l1 l2 = 0 → l1 = l2 := by
  intro l1
  induction l1 with
  | nil =>
    intro l2 h
    cases l2 with
    | nil => rfl
    | cons b bs => simp [charListCmp] at h
  | cons a as ih =>
    intro l2 h
    cases l2 with
    | nil => simp [charListCmp] at h
    | cons b bs =>
      by_cases h1 : a.toNat < b.toNat
      · simp [charListCmp, h1] at h
      · by_cases h2 : b.toNat < a.toNat
        · simp [charListCmp, h1, h2] at h
        · have hab : a = b := char_eq_of_toNat_eq (by omega)
          simp only [charListCmp, if_neg h1, if_neg h2] at h
          rw [hab, ih bs h]

theorem strcmp_ne_zero_of_ne {a b : String} (h : a ≠ b) : strcmp a b ≠ 0 := by
  intro h0
  apply h
  have hd := charListCmp_eq_zero a.data b.data h0
  cases a
  cases b
  exact congrArg String.mk hd

/-- C7 (amended): in the patient level of the grouping comparator the IDs are
used for identity but the names for sorting: whenever the patient IDs differ
(the file's being non-empty), the comparison result is the name comparison if
the names differ, and only falls back to the ID comparison when the names are
equal. -/
theorem patientLevelCmp_sorts_by_name (f : FileMeta) (g : SeriesInfo)
    (hid : g.patientID.getD "" ≠ f.patientID.getD "")
    (_hfne : f.patientID.getD "" ≠ "") :
    (g.patientName.getD "" ≠ f.patientName.getD "" →
      patientLevelCmp f g =
        strcmp (g.patientName.getD "") (f.patientName.getD "")) ∧
    (g.patientName.getD "" = f.patientName.getD "" →
      patientLevelCmp f g =
        strcmp (g.patientID.getD "") (f.patientID.getD "")) := by
  have hc : strcmp (g.patientID.getD "") (f.patientID.getD "") ≠ 0 :=
    strcmp_ne_zero_of_ne hid
  constructor
  · intro hname
    have hc2 : strcmp (g.patientName.getD "") (f.patientName.getD "") ≠ 0 :=
      strcmp_ne_zero_of_ne hname
    simp only [patientLevelCmp]
    rw [if_pos (Or.inl hc), if_neg hc2]
  · intro hname
    have hc2 : strcmp (g.patientName.getD "") (f.patientName.getD "") = 0 := by
      rw [hname]; exact strcmp_self _
    simp only [patientLevelCmp]
    rw [if_pos (Or.inl hc), if_pos hc2]

/-- Witness for the amended C7 at concrete inputs. -/
theorem patientLevelCmp_sorts_by_name_witness :
    patientLevelCmp fileIdB (newGroup fileIdA true) =
      strcmp ((newGroup fileIdA true).patientName.getD "")
        (fileIdB.patientName.getD "") :=
  (patientLevelCmp_sorts_by_name fileIdB (newGroup fileIdA true)
    (by decide) (by decide)).1 (by decide)

/-- C7 counterexample: two decodable files with distinct non-empty patient IDs
"A" and "B"; the ID comparison orders A before B, yet the working group list
ends up with the "B" group first, because the names "Zeta" and "Yana" decide
the order. -/
theorem patientOrder_counterexample :
    (groupFiles defaultConfig [fileIdA, fileIdB]).1.map
        (fun g => g.patientID) = [some "B", some "A"] ∧
    strcmp (fileIdA.patientID.getD "") (fileIdB.patientID.getD "") = -1 ∧
    fileIdA.patientID.getD "" ≠ "" ∧ fileIdB.patientID.getD "" ≠ "" :=
  ⟨rfl, rfl, by decide, by decide⟩

theorem insertFile_studyTime_none (f : FileMeta) (qm : Bool) :
    ∀ gs : List SeriesInfo, (∀ g ∈ gs, g.studyTime = none) →
      ∀ g ∈ insertFile f qm gs, g.studyTime = none := by
  intro gs
  induction gs with
  | nil =>
    intro _ g hg
    simp only [insertFile, List.mem_singleton] at hg
    rw [hg]
    rfl
  | cons g0 rest ih =>
    intro hall g hg
    simp only [insertFile] at hg
    split at hg
    · rcases List.mem_cons.mp hg with h | h
      · rw [h]
        exact hall g0 (List.mem_cons_self _ _)
      · exact hall g (List.mem_cons_of_mem _ h)
    · split at hg
      · rcases List.mem_cons.mp hg with h | h
        · rw [h]; rfl
        · exact hall g h
      · rcases List.mem_cons.mp hg with h | h
        · rw [h]
          exact hall g0 (List.mem_cons_self _ _)
        · exact ih (fun x hx => hall x (List.mem_cons_of_mem _ hx)) g h

theorem processOneFile_fst (cfg : SortConfig) (acc : List SeriesInfo × Nat)
    (f : FileMeta) :
    (processOneFile cfg acc f).1 = acc.1 ∨
    ∃ qm, (processOneFile cfg acc f).1 = insertFile f qm acc.1 := by
  simp only [processOneFile]
  repeat' split
  all_goals first
    | exact Or.inl rfl
    | exact Or.inr ⟨_, rfl⟩

theorem processOneFile_studyTime_none (cfg : SortConfig) (acc : List SeriesInfo × Nat)
    (f : FileMeta) (h : ∀ g ∈ acc.1, g.studyTime = none) :
    ∀ g ∈ (processOneFile cfg acc f).1, g.studyTime = none := by
  rcases processOneFile_fst cfg acc f with heq | ⟨qm, heq⟩
  · rw [heq]; exact h
  · rw [heq]; exact insertFile_studyTime_none f qm acc.1 h

theorem groupFiles_aux_studyTime_none (cfg : SortConfig) :
    ∀ (fs : List FileMeta) (acc : List SeriesInfo × Nat),
      (∀ g ∈ acc.1, g.studyTime = none) →
      ∀ g ∈ (fs.foldl (processOneFile cfg) acc).1, g.studyTime = none := by
  intro fs
  induction fs with
  | nil => intro acc h; simpa using h
  | cons f fs ih =>
    intro acc h
    exact ih (processOneFile cfg acc f) (processOneFile_studyTime_none cfg acc f h)

/-- C8 (amended): the grouping phase never populates a group's study time
(the insertion at source lines 708-719 omits `StudyTime`), so the study-time
tie-break in the comparator is dead during grouping: for files under the same
patient whose study UIDs are absent, with both study dates present, the study
level compares the dates alone, and equal dates yield a zero study-level
result no matter what the study times are. -/
theorem studyLevelCmp_ignores_time :
    (∀ (cfg : SortConfig) (fs : List FileMeta),
      ∀ g ∈ (groupFiles cfg fs).1, g.studyTime = none) ∧
    (∀ (f : FileMeta) (g : SeriesInfo), g.studyTime = none →
      f.studyUID = none → g.studyUID = none →
      ∀ d d2, f.studyDate = some d → g.studyDate = some d2 →
        studyLevelCmp f g = strcmp d2 d) := by
  constructor
  · intro cfg fs
    exact groupFiles_aux_studyTime_none cfg fs ([], 0) (by simp)
  · intro f g ht hfu hgu d d2 hd hd2
    simp only [studyLevelCmp, hfu, hgu, hd, hd2, ht, compareUIDs]
    by_cases hx : strcmp d2 d = 0
    · simp [hx]
    · simp [hx]

/-- Witness for the amended C8 at concrete inputs. -/
theorem studyLevelCmp_ignores_time_witness :
    studyLevelCmp studyTimeFile2 (newGroup studyTimeFile1 true) =
      strcmp "20200101" "20200101" :=
  studyLevelCmp_ignores_time.2 studyTimeFile2 (newGroup studyTimeFile1 true)
    rfl rfl rfl "20200101" "20200101" rfl rfl

/-- C8 counterexample: two decodable files of one patient, study UIDs absent,
equal study dates, study times 010000 then 020000, both times present in the
headers.  Ascending `(study date, study time)` order would put the second
file's group after the first, but the code computes a zero study-level result
(the stored group's study time is never set) and the series-number fallback
places the second group first. -/
theorem studyOrder_counterexample :
    (groupFiles defaultConfig [studyTimeFile1, studyTimeFile2]).1.map
        (fun g => g.seriesNumber) = [3, 5] ∧
    studyTimeFile1.studyDate = studyTimeFile2.studyDate ∧
    studyTimeFile1.studyTime = some "010000" ∧
    studyTimeFile2.studyTime = some "020000" ∧
    (∀ g ∈ (groupFiles defaultConfig [studyTimeFile1]).1,
      studyLevelCmp studyTimeFile2 g = 0) :=
  ⟨rfl, rfl, rfl, rfl, by decide⟩

/-- C9: a file joins an existing group only when the cascading comparison ties
and its series UID is present; a file without a series UID always creates a
new group, even on a tie. -/
theorem insertFile_join_requires_uid (f : FileMeta) (qm : Bool)
    (gs : List SeriesInfo) :
    (f.seriesUID = none → (insertFile f qm gs).length = gs.length + 1) ∧
    ((insertFile f qm gs).length = gs.length →
      f.seriesUID.isSome = true ∧ ∃ g ∈ gs, fileCompare f g = 0) := by
  induction gs with
  | nil =>
    constructor
    · intro _; rfl
    · intro h
      simp [insertFile] at h
  | cons g rest ih =>
    constructor
    · intro hnone
      have hno : ¬ (fileCompare f g = 0 ∧ f.seriesUID.isSome = true) := by
        simp [hnone]
      simp only [insertFile]
      rw [if_neg hno]
      split
      · simp
      · simp only [List.length_cons]
        rw [ih.1 hnone]
    · intro hlen
      simp only [insertFile] at hlen
      split at hlen
      · rename_i hjoin
        exact ⟨hjoin.2, g, List.mem_cons_self _ _, hjoin.1⟩
      · split at hlen
        · simp at hlen
        · simp only [List.length_cons, Nat.add_right_cancel_iff] at hlen
          obtain ⟨h1, g1, hg1, hc⟩ := ih.2 hlen
          exact ⟨h1, g1, List.mem_cons_of_mem _ hg1, hc⟩

/-- Witness for C9: a file without a series UID creates a new group even
though the working list already holds a group it ties with. -/
theorem insertFile_join_requires_uid_witness :
    (insertFile noUidFile true [newGroup fileIdA true]).length =
      [newGroup fileIdA true].length + 1 :=
  (insertFile_join_requires_uid noUidFile true [newGroup fileIdA true]).1 rfl

/-! ### Theorems for C1: grouping of files with one identification triple -/

theorem patientLevelCmp_same {pid suid serid : String} {f : FileMeta}
    {g : SeriesInfo} (hpid : pid ≠ "")
    (hf : goodFile pid suid serid f) (hg : sameTripleGroup pid suid serid g) :
    patientLevelCmp f g = 0 := by
  obtain ⟨_, _, hfp, _, _⟩ := hf
  obtain ⟨hgp, _, _, _⟩ := hg
  simp only [patientLevelCmp, hfp, hgp, Option.getD_some]
  rw [if_neg]
  · exact strcmp_self pid
  · rw [strcmp_self pid]
    simp [hpid]

theorem studyLevelCmp_same {pid suid serid : String} {f : FileMeta}
    {g : SeriesInfo}
    (hf : goodFile pid suid serid f) (hg : sameTripleGroup pid suid serid g) :
    studyLevelCmp f g = 0 := by
  obtain ⟨_, _, _, hfs, _⟩ := hf
  obtain ⟨_, hgs, _, _⟩ := hg
  simp only [studyLevelCmp, hfs, hgs, compareUIDs]
  rw [if_neg]
  · exact strcmp_self suid
  · rw [strcmp_self suid]
    simp

theorem seriesLevelCmp_same {pid suid serid : String} {f : FileMeta}
    {g : SeriesInfo}
    (hf : goodFile pid suid serid f) (hg : sameTripleGroup pid suid serid g) :
    seriesLevelCmp f g = 0 := by
  obtain ⟨_, _, _, _, hfr⟩ := hf
  obtain ⟨_, _, hgr, _⟩ := hg
  simp only [seriesLevelCmp, hfr, hgr, compareUIDs]
  rw [if_neg]
  · exact strcmp_self serid
  · rw [strcmp_self serid]
    simp

theorem fileCompare_same {pid suid serid : String} {f : FileMeta}
    {g : SeriesInfo} (hpid : pid ≠ "")
    (hf : goodFile pid suid serid f) (hg : sameTripleGroup pid suid serid g) :
    fileCompare f g = 0 := by
  simp [fileCompare, patientLevelCmp_same hpid hf hg, studyLevelCmp_same hf hg,
    seriesLevelCmp_same hf hg]

theorem insertFile_same_single {pid suid serid : String} {f : FileMeta}
    {g : SeriesInfo} (hpid : pid ≠ "")
    (hf : goodFile pid suid serid f) (hg : sameTripleGroup pid suid serid g) :
    insertFile f true [g] =
      [{ g with files := g.files ++ [toFileInfo f], queryMatched := true }] := by
  have hc := fileCompare_same hpid hf hg
  have hsome : f.seriesUID.isSome = true := by
    rw [hf.2.2.2.2]
    rfl
  simp only [insertFile]
  rw [if_pos (And.intro hc hsome)]
  simp [Bool.or_true]

theorem processOneFile_good {pid suid serid : String} {f : FileMeta}
    (fl rpd : Bool) (gs : List SeriesInfo) (err : Nat)
    (hf : goodFile pid suid serid f) :
    processOneFile ⟨false, fl, rpd⟩ (gs, err) f = (insertFile f true gs, err) := by
  obtain ⟨h1, h2, _, _, _⟩ := hf
  simp [processOneFile, h1, h2]

theorem groupFold_same {pid suid serid : String} (fl rpd : Bool)
    (hpid : pid ≠ "") :
    ∀ (fs : List FileMeta) (g : SeriesInfo) (err : Nat),
      (∀ f ∈ fs, goodFile pid suid serid f) →
      sameTripleGroup pid suid serid g →
      ∃ g', fs.foldl (processOneFile ⟨false, fl, rpd⟩) ([g], err) = ([g'], err) ∧
        sameTripleGroup pid suid serid g' ∧
        g'.files = g.files ++ fs.map toFileInfo := by
  intro fs
  induction fs with
  | nil =>
    intro g err _ hg
    exact ⟨g, rfl, hg, by simp⟩
  | cons f fs ih =>
    intro g err hall hg
    have hf : goodFile pid suid serid f := hall f (List.mem_cons_self _ _)
    have hstep : processOneFile ⟨false, fl, rpd⟩ ([g], err) f =
        ([{ g with files := g.files ++ [toFileInfo f], queryMatched := true }], err) := by
      rw [processOneFile_good fl rpd [g] err hf, insertFile_same_single hpid hf hg]
    have hg2 : sameTripleGroup pid suid serid
        { g with files := g.files ++ [toFileInfo f], queryMatched := true } :=
      ⟨hg.1, hg.2.1, hg.2.2.1, rfl⟩
    obtain ⟨g', hfold, hsame, hfiles⟩ :=
      ih { g with files := g.files ++ [toFileInfo f], queryMatched := true } err
        (fun x hx => hall x (List.mem_cons_of_mem _ hx)) hg2
    refine ⟨g', ?_, hsame, ?_⟩
    · rw [List.foldl_cons, hstep, hfold]
    · rw [hfiles]
      simp

theorem newGroup_same {pid suid serid : String} {f : FileMeta}
    (hf : goodFile pid suid serid f) :
    sameTripleGroup pid suid serid (newGroup f true) :=
  ⟨hf.2.2.1, hf.2.2.2.1, hf.2.2.2.2, rfl⟩

theorem addSeries_on_empty {ρ : Type} (files : List String) (pr sr xr : ρ) :
    addSeriesFileNames 0 0 files pr sr xr (emptyState ρ) =
      ⟨[⟨pr, [0]⟩], [⟨sr, pr, 0, 0⟩], [⟨xr, files⟩]⟩ := rfl

theorem flushLoop_single (g : SeriesInfo) (hq : g.queryMatched = true) :
    flushLoop none none 0 0 [g] (emptyState FileMeta) =
      ⟨[⟨g.patientRecord, [0]⟩], [⟨g.studyRecord, g.patientRecord, 0, 0⟩],
       [⟨g.seriesRecord,
         (stableSortFiles g.files).map (fun fi => fi.fileName)⟩]⟩ := by
  simp only [flushLoop, hq, if_true, true_or]
  exact addSeries_on_empty _ _ _ _

theorem insertSorted_mem {a x : FileInfo} :
    ∀ {l : List FileInfo}, x ∈ insertSorted a l → x = a ∨ x ∈ l := by
  intro l
  induction l with
  | nil =>
    intro h
    simp only [insertSorted, List.mem_singleton] at h
    exact Or.inl h
  | cons b l ih =>
    intro h
    simp only [insertSorted] at h
    split at h
    · rcases List.mem_cons.mp h with h1 | h1
      · exact Or.inl h1
      · exact Or.inr h1
    · rcases List.mem_cons.mp h with h1 | h1
      · exact Or.inr (h1 ▸ List.mem_cons_self _ _)
      · rcases ih h1 with h2 | h2
        · exact Or.inl h2
        · exact Or.inr (List.mem_cons_of_mem _ h2)

theorem insertSorted_pairwise (a : FileInfo) :
    ∀ (l : List FileInfo),
      l.Pairwise (fun x y => x.instanceNumber ≤ y.instanceNumber) →
      (insertSorted a l).Pairwise (fun x y => x.instanceNumber ≤ y.instanceNumber) := by
  intro l
  induction l with
  | nil =>
    intro _
    simp [insertSorted]
  | cons b l ih =>
    intro hp
    obtain ⟨hb, hl⟩ := List.pairwise_cons.mp hp
    simp only [insertSorted]
    split
    · rename_i hab
      refine List.pairwise_cons.mpr ⟨?_, hp⟩
      intro x hx
      rcases List.mem_cons.mp hx with h | h
      · rw [h]
        omega
      · have := hb x h
        omega
    · rename_i hab
      refine List.pairwise_cons.mpr ⟨?_, ih hl⟩
      intro x hx
      rcases insertSorted_mem hx with h | h
      · rw [h]
        omega
      · exact hb x h

theorem insertSorted_filter (a : FileInfo) (k : Nat) :
    ∀ (l : List FileInfo),
      l.Pairwise (fun x y => x.instanceNumber ≤ y.instanceNumber) →
      (insertSorted a l).filter (fun x => x.instanceNumber = k) =
        if a.instanceNumber = k then
          l.filter (fun x => x.instanceNumber = k) ++ [a]
        else l.filter (fun x => x.instanceNumber = k) := by
  intro l
  induction l with
  | nil =>
    intro _
    by_cases hk : a.instanceNumber = k
    · simp [insertSorted, hk]
    · simp [insertSorted, hk]
  | cons b l ih =>
    intro hp
    obtain ⟨hb, hl⟩ := List.pairwise_cons.mp hp
    simp only [insertSorted]
    by_cases hab : a.instanceNumber < b.instanceNumber
    · rw [if_pos hab]
      by_cases hk : a.instanceNumber = k
      · have hbknot : ¬ (b.instanceNumber = k) := by omega
        have hlnone :
            List.filter (fun x => decide (x.instanceNumber = k)) l = [] := by
          rw [List.filter_eq_nil_iff]
          intro x hx
          have := hb x hx
          simp only [decide_eq_true_eq]
          omega
        simp [List.filter_cons, hk, hbknot, hlnone]
      · simp [List.filter_cons, hk]
    · rw [if_neg hab]
      by_cases hbk : b.instanceNumber = k
      · by_cases hk : a.instanceNumber = k
        · simp [List.filter_cons, ih hl, hk, hbk]
        · simp [List.filter_cons, ih hl, hk, hbk]
      · by_cases hk : a.instanceNumber = k
        · simp [List.filter_cons, ih hl, hk, hbk]
        · simp [List.filter_cons, ih hl, hk, hbk]

theorem stableSortFiles_aux :
    ∀ (l acc : List FileInfo),
      acc.Pairwise (fun x y => x.instanceNumber ≤ y.instanceNumber) →
      (l.foldl (fun acc a => insertSorted a acc) acc).Pairwise
        (fun x y => x.instanceNumber ≤ y.instanceNumber) ∧
      ∀ k, (l.foldl (fun acc a => insertSorted a acc) acc).filter
          (fun x => x.instanceNumber = k) =
        acc.filter (fun x => x.instanceNumber = k) ++
          l.filter (fun x => x.instanceNumber = k) := by
  intro l
  induction l with
  | nil =>
    intro acc h
    exact ⟨h, fun k => by simp⟩
  | cons a l ih =>
    intro acc h
    have h1 := insertSorted_pairwise a acc h
    obtain ⟨hp, hf⟩ := ih (insertSorted a acc) h1
    refine ⟨by rw [List.foldl_cons]; exact hp, fun k => ?_⟩
    rw [List.foldl_cons, hf k, insertSorted_filter a k acc h, List.filter_cons]
    by_cases hk : a.instanceNumber = k
    · rw [if_pos hk, if_pos (by simpa using hk)]
      simp
    · rw [if_neg hk, if_neg (by simpa using hk)]

theorem stableSortFiles_pairwise (l : List FileInfo) :
    (stableSortFiles l).Pairwise
      (fun x y => x.instanceNumber ≤ y.instanceNumber) :=
  (stableSortFiles_aux l [] (by simp)).1

theorem stableSortFiles_filter (l : List FileInfo) (k : Nat) :
    (stableSortFiles l).filter (fun x => x.instanceNumber = k) =
      l.filter (fun x => x.instanceNumber = k) := by
  have := (stableSortFiles_aux l [] (by simp)).2 k
  simpa [stableSortFiles] using this

/-- C1: for a non-empty list of decodable files all carrying one non-empty
identification triple (patient ID, study UID, series UID), `SortFiles` on a
fresh store produces exactly one `SeriesItem`, whose file list is the input
files sorted ascending by instance number with ties kept in input order:
the sorted list is pairwise non-decreasing, and for every instance number the
files carrying it appear exactly as in the input. -/
theorem sortFiles_single_series (fl rpd : Bool) (fs : List FileMeta)
    (pid suid serid : String) (hne : fs ≠ []) (hpid : pid ≠ "")
    (hall : ∀ f ∈ fs, f.isDicom = true ∧ f.pixelDataFound = true ∧
      f.patientID = some pid ∧ f.studyUID = some suid ∧
      f.seriesUID = some serid) :
    ∃ (e : SeriesItem FileMeta) (l : List FileInfo),
      (sortFiles ⟨false, fl, rpd⟩ fs (emptyState FileMeta)).1.series = [e] ∧
      e.files = l.map (fun fi => fi.fileName) ∧
      l.Pairwise (fun a b => a.instanceNumber ≤ b.instanceNumber) ∧
      ∀ k, l.filter (fun a => a.instanceNumber = k) =
        (fs.map toFileInfo).filter (fun a => a.instanceNumber = k) := by
  cases fs with
  | nil => exact absurd rfl hne
  | cons f0 rest =>
    have hf0 : goodFile pid suid serid f0 := hall f0 (List.mem_cons_self _ _)
    have hstep : processOneFile ⟨false, fl, rpd⟩ ([], 0) f0 =
        ([newGroup f0 true], 0) := by
      rw [processOneFile_good fl rpd [] 0 hf0]
      rfl
    obtain ⟨g', hfold, hsame, hfiles⟩ :=
      groupFold_same fl rpd hpid rest (newGroup f0 true) 0
        (fun x hx => hall x (List.mem_cons_of_mem _ hx)) (newGroup_same hf0)
    have hgrp : (groupFiles ⟨false, fl, rpd⟩ (f0 :: rest)).1 = [g'] := by
      unfold groupFiles
      rw [List.foldl_cons, hstep, hfold]
    have hfl : g'.files = (f0 :: rest).map toFileInfo := by
      rw [hfiles]
      rfl
    refine ⟨⟨g'.seriesRecord,
        (stableSortFiles g'.files).map (fun fi => fi.fileName)⟩,
      stableSortFiles g'.files, ?_, rfl, stableSortFiles_pairwise _, ?_⟩
    · show (flushLoop none none
          ((emptyState FileMeta).patients.length : Int)
          ((emptyState FileMeta).studies.length : Int)
          (groupFiles ⟨false, fl, rpd⟩ (f0 :: rest)).1
          (emptyState FileMeta)).series = _
      rw [hgrp]
      have := flushLoop_single g' hsame.2.2.2
      rw [show ((emptyState FileMeta).patients.length : Int) = 0 from rfl,
        show ((emptyState FileMeta).studies.length : Int) = 0 from rfl, this]
    · intro k
      rw [stableSortFiles_filter, hfl]

/-- Witness for C1: three files sharing the triple, instance numbers 3, 1, 2. -/
theorem sortFiles_single_series_witness :
    ∃ (e : SeriesItem FileMeta) (l : List FileInfo),
      (sortFiles ⟨false, false, true⟩ [tripleFileA, tripleFileB, tripleFileC]
        (emptyState FileMeta)).1.series = [e] ∧
      e.files = l.map (fun fi => fi.fileName) ∧
      l.Pairwise (fun a b => a.instanceNumber ≤ b.instanceNumber) ∧
      ∀ k, l.filter (fun a => a.instanceNumber = k) =
        (([tripleFileA, tripleFileB, tripleFileC]).map toFileInfo).filter
          (fun a => a.instanceNumber = k) :=
  sortFiles_single_series false true [tripleFileA, tripleFileB, tripleFileC]
    "P1" "9.8.7" "1.2.3" (by decide) (by decide) (by decide)

/-! ### Theorems for C5 and C6: `ProcessDirectory` control decisions -/

/-- C5 (evaluation of the code at the failing input): with the visited set
`["b"]` and a directory whose canonical real path is `"a"` — a path that has
never been visited — the check returns early without inserting or scanning,
because `lower_bound` lands on `"b"` and the source tests `*viter < realname`
where only `*viter != realname` would be correct (its own comment says "This
directory has already been visited."). -/
theorem visitedCheck_skips_unvisited :
    visitedCheck ["b"] "a" = none ∧ ("a" : String) ∉ (["b"] : List String) :=
  ⟨rfl, by decide⟩

/-- C6 counterexample: with the default `ScanDepth = 1`, a DICOMDIR found at
the initial call depth (`depth = ScanDepth = 1`) whose decoding fails with
error 7 does not surface the error and does not stop the directory: the call
falls through to plain enumeration. -/
theorem dicomdirError_counterexample :
    processDirectoryControl false 1 1 true 7 = ScanOutcome.enumerated ∧
    ∀ e : Nat, processDirectoryControl false 1 1 true 7 ≠
      ScanOutcome.errorReturn e := by
  refine ⟨rfl, ?_⟩
  intro e h
  exact ScanOutcome.noConfusion h

/-- C6 (amended): a DICOMDIR decode failure is surfaced as the retained error
iff the index was probed (no input list, `depth = ScanDepth`, file present),
decoding failed, and additionally `depth = 0`; at the initial call depth with
`depth ≥ 1` the failure falls back silently to enumeration; and at depths
other than `ScanDepth` the DICOMDIR is never consulted, so the outcome is the
plain depth-check outcome whatever the index file's state. -/
theorem dicomdirError_surfaces_only_at_depth_zero (inp found : Bool)
    (depth scanDepth : Int) (err : Nat) :
    ((∃ e, processDirectoryControl inp depth scanDepth found err =
        ScanOutcome.errorReturn e) ↔
      (inp = false ∧ depth = scanDepth ∧ found = true ∧ err ≠ 0 ∧ depth = 0)) ∧
    (inp = false → depth = scanDepth → found = true → err ≠ 0 → 1 ≤ depth →
      processDirectoryControl inp depth scanDepth found err =
        ScanOutcome.enumerated) ∧
    (depth ≠ scanDepth →
      processDirectoryControl inp depth scanDepth found err =
        (if depth ≤ 0 then ScanOutcome.returnedNoScan
         else ScanOutcome.enumerated)) := by
  refine ⟨⟨?_, ?_⟩, ?_, ?_⟩
  · intro ⟨e, he⟩
    unfold processDirectoryControl at he
    split_ifs at he with h1 h2 h3 h4
    · obtain ⟨hi, hd, hf⟩ := h1
      exact ⟨by simpa using hi, hd, hf, h2.1, h2.2⟩
  · intro ⟨hi, hd, hf, he, h0⟩
    refine ⟨err, ?_⟩
    unfold processDirectoryControl
    rw [if_pos ⟨by simp [hi], hd, by simp [hf]⟩, if_pos ⟨he, h0⟩]
  · intro hi hd hf he hge
    unfold processDirectoryControl
    rw [if_pos ⟨by simp [hi], hd, by simp [hf]⟩]
    rw [if_neg (fun hc => by omega)]
    rw [if_neg he, if_neg (by omega)]
  · intro hne
    unfold processDirectoryControl
    rw [if_neg (fun hc => hne hc.2.1)]

/-- Witness for the amended C6: with `ScanDepth = 0` a decode failure does
surface as the retained error. -/
theorem dicomdirError_surfaces_only_at_depth_zero_witness :
    ∃ e, processDirectoryControl false 0 0 true 7 = ScanOutcome.errorReturn e :=
  (dicomdirError_surfaces_only_at_depth_zero false true 0 0 7).1.mpr
    ⟨rfl, rfl, rfl, by decide, rfl⟩

theorem mapFind_mapSet_self (m : List (Nat × Nat)) (k v : Nat) :
    mapFind (mapSet m k v) k = some v := by
  induction m with
  | nil => simp [mapSet, mapFind, List.find?]
  | cons p rest ih =>
    by_cases h : p.1 = k
    · simp [mapSet, h, mapFind, List.find?]
    · simp only [mapSet, if_neg h]
      simpa [mapFind, List.find?_cons_of_neg, h] using ih

theorem mapFind_mapSet_ne (m : List (Nat × Nat)) (k v k' : Nat) (h : k' ≠ k) :
    mapFind (mapSet m k v) k' = mapFind m k' := by
  induction m with
  | nil => simp [mapSet, mapFind, List.find?, Ne.symm h]
  | cons p rest ih =>
    by_cases hp : p.1 = k
    · subst hp
      simp [mapSet, mapFind, List.find?_cons_of_neg, Ne.symm h]
    · by_cases hp' : p.1 = k'
      · simp only [mapSet, if_neg hp]
        unfold mapFind
        rw [List.find?_cons_of_pos _ (by simp [hp']),
          List.find?_cons_of_pos _ (by simp [hp'])]
      · simp only [mapSet, if_neg hp]
        simpa [mapFind, List.find?_cons_of_neg, hp'] using ih

theorem consumeKeys_cons (k : Nat) (ks : List Nat) (m : List (Nat × Nat)) :
    consumeKeys (k :: ks) m = consumeKeys ks (mapSet m k consumedMark) := rfl

theorem consumeKeys_nil (m : List (Nat × Nat)) : consumeKeys [] m = m := rfl

theorem mapFind_consumeKeys_notMem (ks : List Nat) (m : List (Nat × Nat)) (k : Nat)
    (h : k ∉ ks) : mapFind (consumeKeys ks m) k = mapFind m k := by
  induction ks generalizing m with
  | nil => rfl
  | cons a ks ih =>
    rw [consumeKeys_cons, ih _ (fun hm => h (List.mem_cons_of_mem _ hm)),
      mapFind_mapSet_ne]
    exact fun he => h (he ▸ List.mem_cons_self _ _)

theorem offRange_append (off a b : Nat) :
    offRange off (a + b) = offRange off a ++ offRange (off + a) b := by
  induction a generalizing off with
  | zero => simp [offRange]
  | succ a ih =>
    rw [show a + 1 + b = (a + b) + 1 by omega]
    simp only [offRange, List.cons_append]
    rw [ih (off + 1), show off + (a + 1) = off + 1 + a by omega]

theorem mem_offRange (k : Nat) : ∀ (off n : Nat), k ∈ offRange off n ↔ off ≤ k ∧ k < off + n := by
  intro off n
  induction n generalizing off with
  | zero => simp [offRange]
  | succ n ih =>
    simp only [offRange, List.mem_cons, ih]
    omega

theorem offRange_nodup : ∀ (off n : Nat), (offRange off n).Nodup := by
  intro off n
  induction n generalizing off with
  | zero => simp [offRange]
  | succ n ih =>
    simp only [offRange, List.nodup_cons]
    exact ⟨fun hm => by have := (mem_offRange _ _ _).1 hm; omega, ih (off + 1)⟩

theorem consumeKeys_append (ks1 ks2 : List Nat) (m : List (Nat × Nat)) :
    consumeKeys (ks1 ++ ks2) m = consumeKeys ks2 (consumeKeys ks1 m) := by
  simp [consumeKeys, List.foldl_append]

theorem getD_of_get2 {l : List Rec} {n : Nat} {a : Rec} (d : Rec)
    (h : l.get? n = some a) : l.getD n d = a := by
  simp [List.getD, ← List.get?_eq_getElem?, h]


theorem dirLoop_terminal (items : List Rec) (path : List String) (rpd cap : Bool)
    (dmap : List (Nat × Nat)) (pIdx sIdx : Int) (pRec stRec serRec : Rec)
    (fns : List String) (st : DirState Rec) (capt : List String) :
    dirLoop items path rpd cap dmap 0 [] pIdx sIdx pRec stRec serRec fns st capt =
      (st, capt) := by
  rw [dirLoop]
  rfl

theorem dirLoop_pop_patient (items : List Rec) (path : List String) (rpd cap : Bool)
    (dmap : List (Nat × Nat)) (off2 : Nat) (rest : List (Nat × String))
    (pIdx sIdx : Int) (pRec stRec serRec : Rec)
    (fns : List String) (st : DirState Rec) (capt : List String) :
    dirLoop items path rpd cap dmap 0 ((off2, "PATIENT") :: rest) pIdx sIdx pRec stRec serRec fns st capt =
      dirLoop items path rpd cap dmap off2 rest (pIdx + 1) sIdx pRec stRec serRec fns st capt := by
  conv_lhs => rw [dirLoop]
  simp

theorem dirLoop_pop_study (items : List Rec) (path : List String) (rpd cap : Bool)
    (dmap : List (Nat × Nat)) (off2 : Nat) (rest : List (Nat × String))
    (pIdx sIdx : Int) (pRec stRec serRec : Rec)
    (fns : List String) (st : DirState Rec) (capt : List String) :
    dirLoop items path rpd cap dmap 0 ((off2, "STUDY") :: rest) pIdx sIdx pRec stRec serRec fns st capt =
      dirLoop items path rpd cap dmap off2 rest pIdx (sIdx + 1) pRec stRec serRec fns st capt := by
  conv_lhs => rw [dirLoop]
  simp

theorem dirLoop_pop_series_store (items : List Rec) (path : List String) (rpd : Bool)
    (dmap : List (Nat × Nat)) (off2 : Nat) (rest : List (Nat × String))
    (pIdx sIdx : Int) (pRec stRec serRec : Rec)
    (fns : List String) (st : DirState Rec) (capt : List String) :
    dirLoop items path rpd false dmap 0 ((off2, "SERIES") :: rest) pIdx sIdx pRec stRec serRec fns st capt =
      dirLoop items path rpd false dmap off2 rest pIdx sIdx pRec stRec serRec []
        (addSeriesFileNames pIdx sIdx fns pRec stRec serRec st) capt := by
  conv_lhs => rw [dirLoop]
  simp

theorem dirLoop_step_push (items : List Rec) (path : List String) (rpd cap : Bool)
    (dmap : List (Nat × Nat)) (off : Nat) (stack : List (Nat × String))
    (pIdx sIdx : Int) (pRec stRec serRec : Rec)
    (fns : List String) (st : DirState Rec) (capt : List String)
    {j : Nat} {r : Rec}
    (h0 : off ≠ 0) (hf : mapFind dmap off = some j) (hj : j ≠ consumedMark)
    (hr : items.get? j = some r) (hc : r.childOffset ≠ 0) :
    dirLoop items path rpd cap dmap off stack pIdx sIdx pRec stRec serRec fns st capt =
      dirLoop items path rpd cap (mapSet dmap off consumedMark) r.childOffset
        ((r.nextOffset, r.recordType) :: stack) pIdx sIdx
        (updRec "PATIENT" r pRec) (updRec "STUDY" r stRec) (updRec "SERIES" r serRec)
        (updFiles rpd path r fns) st capt := by
  conv_lhs => rw [dirLoop.eq_def]
  rw [dif_neg h0]
  split
  · rename_i heq
    rw [hf] at heq
    cases heq
  · rename_i j' heq
    rw [hf] at heq
    cases heq
    rw [dif_neg hj, getD_of_get2 defaultRec hr, if_pos hc]

theorem dirLoop_step_leaf (items : List Rec) (path : List String) (rpd cap : Bool)
    (dmap : List (Nat × Nat)) (off : Nat) (stack : List (Nat × String))
    (pIdx sIdx : Int) (pRec stRec serRec : Rec)
    (fns : List String) (st : DirState Rec) (capt : List String)
    {j : Nat} {r : Rec}
    (h0 : off ≠ 0) (hf : mapFind dmap off = some j) (hj : j ≠ consumedMark)
    (hr : items.get? j = some r) (hc : r.childOffset = 0) :
    dirLoop items path rpd cap dmap off stack pIdx sIdx pRec stRec serRec fns st capt =
      dirLoop items path rpd cap (mapSet dmap off consumedMark) r.nextOffset stack pIdx sIdx
        (updRec "PATIENT" r pRec) (updRec "STUDY" r stRec) (updRec "SERIES" r serRec)
        (updFiles rpd path r fns) st capt := by
  conv_lhs => rw [dirLoop.eq_def]
  rw [dif_neg h0]
  split
  · rename_i heq
    rw [hf] at heq
    cases heq
  · rename_i j' heq
    rw [hf] at heq
    cases heq
    rw [dif_neg hj, getD_of_get2 defaultRec hr, if_neg (by simp [hc])]


theorem encImages_offsets (nms : List String) : ∀ off : Nat,
    (encImages off nms).map (fun r => r.byteOffset) = offRange off nms.length := by
  induction nms with
  | nil => intro off; rfl
  | cons nm rest ih =>
    intro off
    simp only [encImages, List.map_cons, List.length_cons, offRange, ih]

theorem encSeriesChain_offsets (sers : List SeriesT) : ∀ off : Nat,
    (encSeriesChain off sers).map (fun r => r.byteOffset) =
      offRange off (sers.map seriesSize).sum := by
  induction sers with
  | nil => intro off; rfl
  | cons s rest ih =>
    intro off
    rw [List.map_cons, List.sum_cons, offRange_append]
    simp only [encSeriesChain, List.map_cons, List.map_append,
      encImages_offsets, ih]
    rw [show seriesSize s = s.images.length + 1 by simp [seriesSize, Nat.add_comm]]
    simp only [offRange, List.cons_append]

theorem encStudyChain_offsets (sts : List StudyT) : ∀ off : Nat,
    (encStudyChain off sts).map (fun r => r.byteOffset) =
      offRange off (sts.map studySize).sum := by
  induction sts with
  | nil => intro off; rfl
  | cons t rest ih =>
    intro off
    rw [List.map_cons, List.sum_cons, offRange_append]
    simp only [encStudyChain, List.map_cons, List.map_append,
      encSeriesChain_offsets, ih]
    rw [show studySize t = (t.series.map seriesSize).sum + 1 by
      simp [studySize, Nat.add_comm]]
    simp only [offRange, List.cons_append]

theorem encPatientChain_offsets (pats : List PatientT) : ∀ off : Nat,
    (encPatientChain off pats).map (fun r => r.byteOffset) =
      offRange off (pats.map patientSize).sum := by
  induction pats with
  | nil => intro off; rfl
  | cons p rest ih =>
    intro off
    rw [List.map_cons, List.sum_cons, offRange_append]
    simp only [encPatientChain, List.map_cons, List.map_append,
      encStudyChain_offsets, ih]
    rw [show patientSize p = (p.studies.map studySize).sum + 1 by
      simp [patientSize, Nat.add_comm]]
    simp only [offRange, List.cons_append]

theorem bo_bounds_of_offsets {l : List Rec} {off n : Nat}
    (hoff : l.map (fun r => r.byteOffset) = offRange off n) {r : Rec} (h : r ∈ l) :
    off ≤ r.byteOffset ∧ r.byteOffset < off + n := by
  have hm : r.byteOffset ∈ l.map (fun x => x.byteOffset) :=
    List.mem_map_of_mem _ h
  rw [hoff] at hm
  exact (mem_offRange _ _ _).1 hm

theorem hasAll_sub {items : List Rec} {dmap : List (Nat × Nat)} {recs recs' : List Rec}
    (h : hasAll items dmap recs) (hsub : ∀ r ∈ recs', r ∈ recs) :
    hasAll items dmap recs' :=
  fun r hr => h r (hsub r hr)

theorem hasAll_mapSet {items : List Rec} {dmap : List (Nat × Nat)} {recs : List Rec}
    {k : Nat} (h : hasAll items dmap recs) (hk : ∀ r ∈ recs, r.byteOffset ≠ k) :
    hasAll items (mapSet dmap k consumedMark) recs := by
  intro r hr
  obtain ⟨j, hf, hj, hg⟩ := h r hr
  exact ⟨j, by rw [mapFind_mapSet_ne _ _ _ _ (hk r hr)]; exact hf, hj, hg⟩

theorem hasAll_consume {items : List Rec} {dmap : List (Nat × Nat)} {recs : List Rec}
    {ks : List Nat} (h : hasAll items dmap recs)
    (hdisj : ∀ r ∈ recs, r.byteOffset ∉ ks) :
    hasAll items (consumeKeys ks dmap) recs := by
  intro r hr
  obtain ⟨j, hf, hj, hg⟩ := h r hr
  exact ⟨j, by rw [mapFind_consumeKeys_notMem _ _ _ (hdisj r hr)]; exact hf, hj, hg⟩

theorem run_images (items : List Rec) (path : List String) (rpd cap : Bool)
    (stack : List (Nat × String)) (pIdx sIdx : Int) (pRec stRec serRec : Rec)
    (st : DirState Rec) (capt : List String) :
    ∀ (nms : List String) (off : Nat) (dmap : List (Nat × Nat)) (fns : List String),
      off ≠ 0 → nms ≠ [] →
      hasAll items dmap (encImages off nms) →
      dirLoop items path rpd cap dmap off stack pIdx sIdx pRec stRec serRec fns st capt =
        dirLoop items path rpd cap (consumeKeys (offRange off nms.length) dmap) 0 stack
          pIdx sIdx pRec stRec serRec
          (fns ++ nms.map (fun nm => joinPath (path ++ [nm]))) st capt := by
  intro nms
  induction nms with
  | nil => intro off dmap fns h0 hne; exact absurd rfl hne
  | cons nm rest ih =>
    intro off dmap fns h0 _ hall
    obtain ⟨j, hf, hj, hg⟩ := hall _ (List.mem_cons_self _ _)
    by_cases hrest : rest = []
    · subst hrest
      rw [if_pos (rfl : ([] : List String) = [])] at hg
      rw [dirLoop_step_leaf items path rpd cap dmap off stack pIdx sIdx pRec stRec
        serRec fns st capt h0 hf hj hg rfl]
      simp [updRec, updFiles, offRange, consumeKeys]
    · rw [if_neg hrest] at hg
      have htail : hasAll items dmap (encImages (off + 1) rest) :=
        hasAll_sub hall (fun r hr => List.mem_cons_of_mem _ hr)
      have htail2 : hasAll items (mapSet dmap off consumedMark)
          (encImages (off + 1) rest) :=
        hasAll_mapSet htail (fun r hr => by
          have := (bo_bounds_of_offsets (encImages_offsets rest (off + 1)) hr).1
          omega)
      rw [dirLoop_step_leaf items path rpd cap dmap off stack pIdx sIdx pRec stRec
        serRec fns st capt h0 hf hj hg rfl]
      simp only [updRec, updFiles]
      simp
      rw [ih (off + 1) (mapSet dmap off consumedMark)
        (fns ++ [joinPath (path ++ [nm])]) (Nat.succ_ne_zero off) hrest htail2]
      simp only [List.length_cons, offRange, consumeKeys_cons, List.map_cons,
        List.append_assoc, List.singleton_append]

theorem modifyAt_length {α : Type} (f : α → α) :
    ∀ (i : Nat) (l : List α), (modifyAt i f l).length = l.length := by
  intro i l
  induction l generalizing i with
  | nil => simp [modifyAt]
  | cons a rest ih =>
    cases i with
    | zero => simp [modifyAt]
    | succ i => simp [modifyAt, ih]

theorem addSeries_counts_new {ρ : Type} (pIdx sIdx : Int) (files : List String)
    (pr sr ser : ρ) (st : DirState ρ)
    (hs : sIdx = (st.studies.length : Int))
    (hp : pIdx = (st.patients.length : Int) ∨ pIdx + 1 = (st.patients.length : Int))
    (hp0 : 0 ≤ pIdx) :
    (addSeriesFileNames pIdx sIdx files pr sr ser st).patients.length = pIdx.toNat + 1 ∧
    (addSeriesFileNames pIdx sIdx files pr sr ser st).studies.length = st.studies.length + 1 ∧
    (addSeriesFileNames pIdx sIdx files pr sr ser st).series = st.series ++ [⟨ser, files⟩] := by
  rcases hp with hp | hp
  · simp only [addSeriesFileNames, addSeriesStudyPhase, addSeriesPatientPhase]
    simp [hs, hp]
  · have h1 : ¬(pIdx = (st.patients.length : Int)) := by omega
    have h2 : pIdx = (st.patients.length : Int) - 1 := by omega
    simp only [addSeriesFileNames, addSeriesStudyPhase, addSeriesPatientPhase]
    simp [hs, h1, h2, modifyAt_length]
    omega

theorem addSeries_counts_cont {ρ : Type} (pIdx sIdx : Int) (files : List String)
    (pr sr ser : ρ) (st : DirState ρ)
    (hs : sIdx + 1 = (st.studies.length : Int))
    (hp : pIdx + 1 = (st.patients.length : Int))
    (hp0 : 0 ≤ pIdx) :
    (addSeriesFileNames pIdx sIdx files pr sr ser st).patients.length = st.patients.length ∧
    (addSeriesFileNames pIdx sIdx files pr sr ser st).studies.length = st.studies.length ∧
    (addSeriesFileNames pIdx sIdx files pr sr ser st).series = st.series ++ [⟨ser, files⟩] := by
  have hs1 : ¬(sIdx = (st.studies.length : Int)) := by omega
  have hs2 : sIdx = (st.studies.length : Int) - 1 := by omega
  have h1 : ¬(pIdx = (st.patients.length : Int)) := by omega
  have h2 : pIdx = (st.patients.length : Int) - 1 := by omega
  simp only [addSeriesFileNames, addSeriesStudyPhase, addSeriesPatientPhase]
  simp [hs1, hs2, h1, h2, modifyAt_length]


theorem consume_fuse (off L : Nat) (dmap : List (Nat × Nat)) :
    consumeKeys (offRange (off + 1) L) (mapSet dmap off consumedMark) =
      consumeKeys (offRange off (L + 1)) dmap := by
  simp only [offRange, consumeKeys_cons]

theorem strPP : (("PATIENT" : String) = "PATIENT") = True := by simp

theorem strPSt : (("PATIENT" : String) = "STUDY") = False := by simp

theorem strPSe : (("PATIENT" : String) = "SERIES") = False := by simp

theorem strStP : (("STUDY" : String) = "PATIENT") = False := by simp

theorem strStSt : (("STUDY" : String) = "STUDY") = True := by simp

theorem strStSe : (("STUDY" : String) = "SERIES") = False := by simp

theorem strSeP : (("SERIES" : String) = "PATIENT") = False := by simp

theorem strSeSt : (("SERIES" : String) = "STUDY") = False := by simp

theorem strSeSe : (("SERIES" : String) = "SERIES") = True := by simp

theorem run_seriesChainCont (items : List Rec) (path : List String) (rpd : Bool)
    (stack : List (Nat × String)) (pIdx sIdx : Int) (capt : List String) :
    ∀ (sers : List SeriesT) (off : Nat) (dmap : List (Nat × Nat))
      (pRec stRec serRec : Rec) (st : DirState Rec),
      off ≠ 0 →
      (∀ s ∈ sers, s.images ≠ []) →
      hasAll items dmap (encSeriesChain off sers) →
      sIdx + 1 = (st.studies.length : Int) →
      pIdx + 1 = (st.patients.length : Int) →
      0 ≤ pIdx →
      ∃ (serRec2 : Rec) (st2 : DirState Rec),
        dirLoop items path rpd false dmap (if sers = [] then 0 else off) stack
            pIdx sIdx pRec stRec serRec [] st capt =
          dirLoop items path rpd false
            (consumeKeys (offRange off (sers.map seriesSize).sum) dmap) 0 stack
            pIdx sIdx pRec stRec serRec2 [] st2 capt ∧
        st2.patients.length = st.patients.length ∧
        st2.studies.length = st.studies.length ∧
        st2.series.map (fun it => it.files.length) =
          st.series.map (fun it => it.files.length) ++
            sers.map (fun s => s.images.length) := by
  intro sers
  induction sers with
  | nil =>
    intro off dmap pRec stRec serRec st h0 hne hall hs hp hp0
    exact ⟨serRec, st, by simp [offRange, consumeKeys], rfl, rfl, by simp⟩
  | cons s rest ih =>
    intro off dmap pRec stRec serRec st h0 hne hall hs hp hp0
    have himg : s.images ≠ [] := hne s (List.mem_cons_self _ _)
    obtain ⟨j, hf, hj, hg⟩ := hall _ (List.mem_cons_self _ _)
    rw [if_neg himg] at hg
    rw [if_neg (List.cons_ne_nil s rest)]
    rw [dirLoop_step_push items path rpd false dmap off stack pIdx sIdx pRec stRec
      serRec [] st capt h0 hf hj hg (Nat.succ_ne_zero off)]
    dsimp only []
    simp only [updRec, updFiles, strSeP, strSeSt, strSeSe, if_true, if_false,
      false_or, or_true]
    have htailI : hasAll items (mapSet dmap off consumedMark)
        (encImages (off + 1) s.images) := by
      refine hasAll_mapSet (hasAll_sub hall ?_) ?_
      · exact fun r hr => List.mem_cons_of_mem _ (List.mem_append_left _ hr)
      · intro r hr
        have := (bo_bounds_of_offsets (encImages_offsets s.images (off + 1)) hr).1
        omega
    rw [run_images items path rpd false _ pIdx sIdx pRec stRec _ st capt s.images
      (off + 1) _ [] (Nat.succ_ne_zero off) himg htailI]
    simp only [List.nil_append]
    rw [dirLoop_pop_series_store]
    rw [consume_fuse]
    obtain ⟨c1, c2, c3⟩ := addSeries_counts_cont pIdx sIdx
      (s.images.map (fun nm => joinPath (path ++ [nm]))) pRec stRec
      ⟨off, if rest = [] then 0 else off + seriesSize s, off + 1, "SERIES", none⟩
      st hs hp hp0
    by_cases hrest : rest = []
    · subst hrest
      rw [if_pos (rfl : ([] : List SeriesT) = [])] at c1 c2 c3 ⊢
      refine ⟨⟨off, 0, off + 1, "SERIES", none⟩,
        addSeriesFileNames pIdx sIdx
          (s.images.map (fun nm => joinPath (path ++ [nm]))) pRec stRec
          ⟨off, 0, off + 1, "SERIES", none⟩ st, ?_, ?_, ?_, ?_⟩
      · rw [show (List.map seriesSize [s]).sum = s.images.length + 1 by
          simp [seriesSize, Nat.add_comm]]
      · rw [c1]
      · rw [c2]
      · rw [c3]
        simp
    · have htailS : hasAll items
          (consumeKeys (offRange off (s.images.length + 1)) dmap)
          (encSeriesChain (off + seriesSize s) rest) := by
        refine hasAll_consume (hasAll_sub hall ?_) ?_
        · exact fun r hr => List.mem_cons_of_mem _ (List.mem_append_right _ hr)
        · intro r hr
          have h1 := (bo_bounds_of_offsets
            (encSeriesChain_offsets rest (off + seriesSize s)) hr).1
          simp only [seriesSize] at h1
          intro hmem
          have h2 := (mem_offRange _ _ _).1 hmem
          omega
      obtain ⟨serRec2, st2, heq, hc1, hc2, hc3⟩ := ih (off + seriesSize s)
        (consumeKeys (offRange off (s.images.length + 1)) dmap) pRec stRec
        ⟨off, if rest = [] then 0 else off + seriesSize s, off + 1, "SERIES", none⟩
        (addSeriesFileNames pIdx sIdx
          (s.images.map (fun nm => joinPath (path ++ [nm]))) pRec stRec
          ⟨off, if rest = [] then 0 else off + seriesSize s, off + 1, "SERIES", none⟩ st)
        (by simp only [seriesSize]; omega) (fun x hx => hne x (List.mem_cons_of_mem _ hx))
        htailS (by rw [c2]; exact hs) (by rw [c1]; exact hp) hp0
      refine ⟨serRec2, st2, ?_, ?_, ?_, ?_⟩
      · rw [heq]
        conv_rhs =>
          rw [show (List.map seriesSize (s :: rest)).sum =
              (s.images.length + 1) + (List.map seriesSize rest).sum by
            simp [seriesSize, Nat.add_comm]]
          rw [offRange_append, consumeKeys_append]
          rw [show off + (s.images.length + 1) = off + seriesSize s by
            simp [seriesSize, Nat.add_comm]]
      · rw [hc1, c1]
      · rw [hc2, c2]
      · rw [hc3, c3]
        simp

theorem run_seriesChainFirst (items : List Rec) (path : List String) (rpd : Bool)
    (stack : List (Nat × String)) (pIdx sIdx : Int) (capt : List String)
    (s : SeriesT) (rest : List SeriesT) (off : Nat) (dmap : List (Nat × Nat))
    (pRec stRec serRec : Rec) (st : DirState Rec)
    (h0 : off ≠ 0)
    (hne : ∀ x ∈ s :: rest, x.images ≠ [])
    (hall : hasAll items dmap (encSeriesChain off (s :: rest)))
    (hs : sIdx = (st.studies.length : Int))
    (hp : pIdx = (st.patients.length : Int) ∨ pIdx + 1 = (st.patients.length : Int))
    (hp0 : 0 ≤ pIdx) :
    ∃ (serRec2 : Rec) (st2 : DirState Rec),
      dirLoop items path rpd false dmap off stack pIdx sIdx pRec stRec serRec [] st capt =
        dirLoop items path rpd false
          (consumeKeys (offRange off ((s :: rest).map seriesSize).sum) dmap) 0 stack
          pIdx sIdx pRec stRec serRec2 [] st2 capt ∧
      st2.patients.length = pIdx.toNat + 1 ∧
      st2.studies.length = st.studies.length + 1 ∧
      st2.series.map (fun it => it.files.length) =
        st.series.map (fun it => it.files.length) ++
          (s :: rest).map (fun x => x.images.length) := by
  have himg : s.images ≠ [] := hne s (List.mem_cons_self _ _)
  obtain ⟨j, hf, hj, hg⟩ := hall _ (List.mem_cons_self _ _)
  rw [if_neg himg] at hg
  rw [dirLoop_step_push items path rpd false dmap off stack pIdx sIdx pRec stRec
    serRec [] st capt h0 hf hj hg (Nat.succ_ne_zero off)]
  dsimp only []
  simp only [updRec, updFiles, strSeP, strSeSt, strSeSe, if_true, if_false,
    false_or, or_true]
  have htailI : hasAll items (mapSet dmap off consumedMark)
      (encImages (off + 1) s.images) := by
    refine hasAll_mapSet (hasAll_sub hall ?_) ?_
    · exact fun r hr => List.mem_cons_of_mem _ (List.mem_append_left _ hr)
    · intro r hr
      have := (bo_bounds_of_offsets (encImages_offsets s.images (off + 1)) hr).1
      omega
  rw [run_images items path rpd false _ pIdx sIdx pRec stRec _ st capt s.images
    (off + 1) _ [] (Nat.succ_ne_zero off) himg htailI]
  simp only [List.nil_append]
  rw [dirLoop_pop_series_store]
  rw [consume_fuse]
  obtain ⟨c1, c2, c3⟩ := addSeries_counts_new pIdx sIdx
    (s.images.map (fun nm => joinPath (path ++ [nm]))) pRec stRec
    ⟨off, if rest = [] then 0 else off + seriesSize s, off + 1, "SERIES", none⟩
    st hs hp hp0
  have htailS : hasAll items
      (consumeKeys (offRange off (s.images.length + 1)) dmap)
      (encSeriesChain (off + seriesSize s) rest) := by
    refine hasAll_consume (hasAll_sub hall ?_) ?_
    · exact fun r hr => List.mem_cons_of_mem _ (List.mem_append_right _ hr)
    · intro r hr
      have h1 := (bo_bounds_of_offsets
        (encSeriesChain_offsets rest (off + seriesSize s)) hr).1
      simp only [seriesSize] at h1
      intro hmem
      have h2 := (mem_offRange _ _ _).1 hmem
      omega
  obtain ⟨serRec2, st2, heq, hc1, hc2, hc3⟩ :=
    run_seriesChainCont items path rpd stack pIdx sIdx capt rest (off + seriesSize s)
      (consumeKeys (offRange off (s.images.length + 1)) dmap) pRec stRec
      ⟨off, if rest = [] then 0 else off + seriesSize s, off + 1, "SERIES", none⟩
      (addSeriesFileNames pIdx sIdx
        (s.images.map (fun nm => joinPath (path ++ [nm]))) pRec stRec
        ⟨off, if rest = [] then 0 else off + seriesSize s, off + 1, "SERIES", none⟩ st)
      (by simp only [seriesSize]; omega) (fun x hx => hne x (List.mem_cons_of_mem _ hx))
      htailS (by rw [c2]; omega) (by rw [c1]; omega) hp0
  refine ⟨serRec2, st2, ?_, ?_, ?_, ?_⟩
  · rw [heq]
    conv_rhs =>
      rw [show (List.map seriesSize (s :: rest)).sum =
          (s.images.length + 1) + (List.map seriesSize rest).sum by
        simp [seriesSize, Nat.add_comm]]
      rw [offRange_append, consumeKeys_append]
      rw [show off + (s.images.length + 1) = off + seriesSize s by
        simp [seriesSize, Nat.add_comm]]
  · rw [hc1, c1]
  · rw [hc2, c2]
  · rw [hc3, c3]
    simp

theorem run_seriesChainFirstNE (items : List Rec) (path : List String) (rpd : Bool)
    (stack : List (Nat × String)) (pIdx sIdx : Int) (capt : List String)
    (sers : List SeriesT) (off : Nat) (dmap : List (Nat × Nat))
    (pRec stRec serRec : Rec) (st : DirState Rec)
    (hne0 : sers ≠ [])
    (h0 : off ≠ 0)
    (hne : ∀ x ∈ sers, x.images ≠ [])
    (hall : hasAll items dmap (encSeriesChain off sers))
    (hs : sIdx = (st.studies.length : Int))
    (hp : pIdx = (st.patients.length : Int) ∨ pIdx + 1 = (st.patients.length : Int))
    (hp0 : 0 ≤ pIdx) :
    ∃ (serRec2 : Rec) (st2 : DirState Rec),
      dirLoop items path rpd false dmap off stack pIdx sIdx pRec stRec serRec [] st capt =
        dirLoop items path rpd false
          (consumeKeys (offRange off (sers.map seriesSize).sum) dmap) 0 stack
          pIdx sIdx pRec stRec serRec2 [] st2 capt ∧
      st2.patients.length = pIdx.toNat + 1 ∧
      st2.studies.length = st.studies.length + 1 ∧
      st2.series.map (fun it => it.files.length) =
        st.series.map (fun it => it.files.length) ++
          sers.map (fun x => x.images.length) := by
  cases sers with
  | nil => exact absurd rfl hne0
  | cons s rest =>
    exact run_seriesChainFirst items path rpd stack pIdx sIdx capt s rest off dmap
      pRec stRec serRec st h0 hne hall hs hp hp0

theorem run_studyChainCont (items : List Rec) (path : List String) (rpd : Bool)
    (stack : List (Nat × String)) (pIdx : Int) (capt : List String) :
    ∀ (sts : List StudyT) (off : Nat) (dmap : List (Nat × Nat)) (sIdx : Int)
      (pRec stRec serRec : Rec) (st : DirState Rec),
      off ≠ 0 →
      (∀ t ∈ sts, t.series ≠ []) →
      (∀ t ∈ sts, ∀ x ∈ t.series, x.images ≠ []) →
      hasAll items dmap (encStudyChain off sts) →
      sIdx = (st.studies.length : Int) →
      pIdx + 1 = (st.patients.length : Int) →
      0 ≤ pIdx →
      ∃ (stRec2 serRec2 : Rec) (st2 : DirState Rec),
        dirLoop items path rpd false dmap (if sts = [] then 0 else off) stack
            pIdx sIdx pRec stRec serRec [] st capt =
          dirLoop items path rpd false
            (consumeKeys (offRange off (sts.map studySize).sum) dmap) 0 stack
            pIdx (sIdx + (sts.length : Int)) pRec stRec2 serRec2 [] st2 capt ∧
        st2.patients.length = st.patients.length ∧
        st2.studies.length = st.studies.length + sts.length ∧
        st2.series.map (fun it => it.files.length) =
          st.series.map (fun it => it.files.length) ++
            (sts.map (fun t => t.series.map (fun x => x.images.length))).join := by
  intro sts
  induction sts with
  | nil =>
    intro off dmap sIdx pRec stRec serRec st h0 hne1 hne2 hall hs hp hp0
    exact ⟨stRec, serRec, st, by simp [offRange, consumeKeys], rfl, by simp, by simp⟩
  | cons t rest ih =>
    intro off dmap sIdx pRec stRec serRec st h0 hne1 hne2 hall hs hp hp0
    have hser : t.series ≠ [] := hne1 t (List.mem_cons_self _ _)
    obtain ⟨j, hf, hj, hg⟩ := hall _ (List.mem_cons_self _ _)
    rw [if_neg hser] at hg
    rw [if_neg (List.cons_ne_nil t rest)]
    rw [dirLoop_step_push items path rpd false dmap off stack pIdx sIdx pRec stRec
      serRec [] st capt h0 hf hj hg (Nat.succ_ne_zero off)]
    dsimp only []
    simp only [updRec, updFiles, strStP, strStSt, strStSe, if_true, if_false,
      false_or, true_or]
    have htailS : hasAll items (mapSet dmap off consumedMark)
        (encSeriesChain (off + 1) t.series) := by
      refine hasAll_mapSet (hasAll_sub hall ?_) ?_
      · exact fun r hr => List.mem_cons_of_mem _ (List.mem_append_left _ hr)
      · intro r hr
        have := (bo_bounds_of_offsets (encSeriesChain_offsets t.series (off + 1)) hr).1
        omega
    obtain ⟨serRec2, st1, heqS, d1, d2, d3⟩ :=
      run_seriesChainFirstNE items path rpd _ pIdx sIdx capt t.series (off + 1)
        (mapSet dmap off consumedMark) pRec
        ⟨off, if rest = [] then 0 else off + studySize t, off + 1, "STUDY", none⟩
        serRec st hser (Nat.succ_ne_zero off) (hne2 t (List.mem_cons_self _ _))
        htailS hs (Or.inr hp) hp0
    rw [heqS, consume_fuse]
    rw [dirLoop_pop_study]
    have htailT : hasAll items
        (consumeKeys (offRange off ((t.series.map seriesSize).sum + 1)) dmap)
        (encStudyChain (off + studySize t) rest) := by
      refine hasAll_consume (hasAll_sub hall ?_) ?_
      · exact fun r hr => List.mem_cons_of_mem _ (List.mem_append_right _ hr)
      · intro r hr
        have h1 := (bo_bounds_of_offsets
          (encStudyChain_offsets rest (off + studySize t)) hr).1
        simp only [studySize] at h1
        intro hmem
        have h2 := (mem_offRange _ _ _).1 hmem
        omega
    obtain ⟨stRec2, serRec3, st2, heq2, e1, e2, e3⟩ := ih (off + studySize t)
      (consumeKeys (offRange off ((t.series.map seriesSize).sum + 1)) dmap)
      (sIdx + 1) pRec
      ⟨off, if rest = [] then 0 else off + studySize t, off + 1, "STUDY", none⟩
      serRec2 st1
      (by simp only [studySize]; omega)
      (fun x hx => hne1 x (List.mem_cons_of_mem _ hx))
      (fun x hx => hne2 x (List.mem_cons_of_mem _ hx))
      htailT (by rw [d2]; omega) (by rw [d1]; omega) hp0
    rw [heq2]
    refine ⟨stRec2, serRec3, st2, ?_, ?_, ?_, ?_⟩
    · conv_rhs =>
        rw [show (List.map studySize (t :: rest)).sum =
            ((t.series.map seriesSize).sum + 1) + (List.map studySize rest).sum by
          simp [studySize, Nat.add_comm]]
        rw [offRange_append, consumeKeys_append]
        rw [show off + ((t.series.map seriesSize).sum + 1) = off + studySize t by
          simp [studySize, Nat.add_comm]]
        rw [show sIdx + ((t :: rest).length : Int) = sIdx + 1 + (rest.length : Int) by
          simp only [List.length_cons]
          push_cast
          ring]
    · rw [e1, d1]
      omega
    · rw [e2, d2]
      simp only [List.length_cons]
      omega
    · rw [e3, d3]
      simp [List.append_assoc]

theorem run_studyChainFirst (items : List Rec) (path : List String) (rpd : Bool)
    (stack : List (Nat × String)) (pIdx sIdx : Int) (capt : List String)
    (t : StudyT) (rest : List StudyT) (off : Nat) (dmap : List (Nat × Nat))
    (pRec stRec serRec : Rec) (st : DirState Rec)
    (h0 : off ≠ 0)
    (hne1 : ∀ x ∈ t :: rest, x.series ≠ [])
    (hne2 : ∀ x ∈ t :: rest, ∀ y ∈ x.series, y.images ≠ [])
    (hall : hasAll items dmap (encStudyChain off (t :: rest)))
    (hs : sIdx = (st.studies.length : Int))
    (hp : pIdx = (st.patients.length : Int) ∨ pIdx + 1 = (st.patients.length : Int))
    (hp0 : 0 ≤ pIdx) :
    ∃ (stRec2 serRec2 : Rec) (st2 : DirState Rec),
      dirLoop items path rpd false dmap off stack pIdx sIdx pRec stRec serRec [] st capt =
        dirLoop items path rpd false
          (consumeKeys (offRange off ((t :: rest).map studySize).sum) dmap) 0 stack
          pIdx (sIdx + ((t :: rest).length : Int)) pRec stRec2 serRec2 [] st2 capt ∧
      st2.patients.length = pIdx.toNat + 1 ∧
      st2.studies.length = st.studies.length + (t :: rest).length ∧
      st2.series.map (fun it => it.files.length) =
        st.series.map (fun it => it.files.length) ++
          ((t :: rest).map (fun x => x.series.map (fun y => y.images.length))).join := by
  have hser : t.series ≠ [] := hne1 t (List.mem_cons_self _ _)
  obtain ⟨j, hf, hj, hg⟩ := hall _ (List.mem_cons_self _ _)
  rw [if_neg hser] at hg
  rw [dirLoop_step_push items path rpd false dmap off stack pIdx sIdx pRec stRec
    serRec [] st capt h0 hf hj hg (Nat.succ_ne_zero off)]
  dsimp only []
  simp only [updRec, updFiles, strStP, strStSt, strStSe, if_true, if_false,
    false_or, true_or]
  have htailS : hasAll items (mapSet dmap off consumedMark)
      (encSeriesChain (off + 1) t.series) := by
    refine hasAll_mapSet (hasAll_sub hall ?_) ?_
    · exact fun r hr => List.mem_cons_of_mem _ (List.mem_append_left _ hr)
    · intro r hr
      have := (bo_bounds_of_offsets (encSeriesChain_offsets t.series (off + 1)) hr).1
      omega
  obtain ⟨serRec2, st1, heqS, d1, d2, d3⟩ :=
    run_seriesChainFirstNE items path rpd _ pIdx sIdx capt t.series (off + 1)
      (mapSet dmap off consumedMark) pRec
      ⟨off, if rest = [] then 0 else off + studySize t, off + 1, "STUDY", none⟩
      serRec st hser (Nat.succ_ne_zero off) (hne2 t (List.mem_cons_self _ _))
      htailS hs hp hp0
  rw [heqS, consume_fuse]
  rw [dirLoop_pop_study]
  have htailT : hasAll items
      (consumeKeys (offRange off ((t.series.map seriesSize).sum + 1)) dmap)
      (encStudyChain (off + studySize t) rest) := by
    refine hasAll_consume (hasAll_sub hall ?_) ?_
    · exact fun r hr => List.mem_cons_of_mem _ (List.mem_append_right _ hr)
    · intro r hr
      have h1 := (bo_bounds_of_offsets
        (encStudyChain_offsets rest (off + studySize t)) hr).1
      simp only [studySize] at h1
      intro hmem
      have h2 := (mem_offRange _ _ _).1 hmem
      omega
  obtain ⟨stRec2, serRec3, st2, heq2, e1, e2, e3⟩ :=
    run_studyChainCont items path rpd stack pIdx capt rest (off + studySize t)
      (consumeKeys (offRange off ((t.series.map seriesSize).sum + 1)) dmap)
      (sIdx + 1) pRec
      ⟨off, if rest = [] then 0 else off + studySize t, off + 1, "STUDY", none⟩
      serRec2 st1
      (by simp only [studySize]; omega)
      (fun x hx => hne1 x (List.mem_cons_of_mem _ hx))
      (fun x hx => hne2 x (List.mem_cons_of_mem _ hx))
      htailT (by rw [d2]; omega) (by rw [d1]; omega) hp0
  rw [heq2]
  refine ⟨stRec2, serRec3, st2, ?_, ?_, ?_, ?_⟩
  · conv_rhs =>
      rw [show (List.map studySize (t :: rest)).sum =
          ((t.series.map seriesSize).sum + 1) + (List.map studySize rest).sum by
        simp [studySize, Nat.add_comm]]
      rw [offRange_append, consumeKeys_append]
      rw [show off + ((t.series.map seriesSize).sum + 1) = off + studySize t by
        simp [studySize, Nat.add_comm]]
      rw [show sIdx + ((t :: rest).length : Int) = sIdx + 1 + (rest.length : Int) by
        simp only [List.length_cons]
        push_cast
        ring]
  · rw [e1, d1]
  · rw [e2, d2]
    simp only [List.length_cons]
    omega
  · rw [e3, d3]
    simp [List.append_assoc]

theorem run_studyChainFirstNE (items : List Rec) (path : List String) (rpd : Bool)
    (stack : List (Nat × String)) (pIdx sIdx : Int) (capt : List String)
    (sts : List StudyT) (off : Nat) (dmap : List (Nat × Nat))
    (pRec stRec serRec : Rec) (st : DirState Rec)
    (hne0 : sts ≠ [])
    (h0 : off ≠ 0)
    (hne1 : ∀ x ∈ sts, x.series ≠ [])
    (hne2 : ∀ x ∈ sts, ∀ y ∈ x.series, y.images ≠ [])
    (hall : hasAll items dmap (encStudyChain off sts))
    (hs : sIdx = (st.studies.length : Int))
    (hp : pIdx = (st.patients.length : Int) ∨ pIdx + 1 = (st.patients.length : Int))
    (hp0 : 0 ≤ pIdx) :
    ∃ (stRec2 serRec2 : Rec) (st2 : DirState Rec),
      dirLoop items path rpd false dmap off stack pIdx sIdx pRec stRec serRec [] st capt =
        dirLoop items path rpd false
          (consumeKeys (offRange off (sts.map studySize).sum) dmap) 0 stack
          pIdx (sIdx + (sts.length : Int)) pRec stRec2 serRec2 [] st2 capt ∧
      st2.patients.length = pIdx.toNat + 1 ∧
      st2.studies.length = st.studies.length + sts.length ∧
      st2.series.map (fun it => it.files.length) =
        st.series.map (fun it => it.files.length) ++
          (sts.map (fun x => x.series.map (fun y => y.images.length))).join := by
  cases sts with
  | nil => exact absurd rfl hne0
  | cons t rest =>
    exact run_studyChainFirst items path rpd stack pIdx sIdx capt t rest off dmap
      pRec stRec serRec st h0 hne1 hne2 hall hs hp hp0

theorem run_patientChain (items : List Rec) (path : List String) (rpd : Bool)
    (stack : List (Nat × String)) (capt : List String) :
    ∀ (pats : List PatientT) (off : Nat) (dmap : List (Nat × Nat)) (pIdx sIdx : Int)
      (pRec stRec serRec : Rec) (st : DirState Rec),
      off ≠ 0 →
      (∀ p ∈ pats, p.studies ≠ []) →
      (∀ p ∈ pats, ∀ t ∈ p.studies, t.series ≠ []) →
      (∀ p ∈ pats, ∀ t ∈ p.studies, ∀ x ∈ t.series, x.images ≠ []) →
      hasAll items dmap (encPatientChain off pats) →
      pIdx = (st.patients.length : Int) →
      sIdx = (st.studies.length : Int) →
      0 ≤ pIdx →
      ∃ (pRec2 stRec2 serRec2 : Rec) (st2 : DirState Rec),
        dirLoop items path rpd false dmap (if pats = [] then 0 else off) stack
            pIdx sIdx pRec stRec serRec [] st capt =
          dirLoop items path rpd false
            (consumeKeys (offRange off (pats.map patientSize).sum) dmap) 0 stack
            (pIdx + (pats.length : Int))
            (sIdx + ((pats.map (fun p => p.studies.length)).sum : Int))
            pRec2 stRec2 serRec2 [] st2 capt ∧
        st2.patients.length = st.patients.length + pats.length ∧
        st2.studies.length =
          st.studies.length + (pats.map (fun p => p.studies.length)).sum ∧
        st2.series.map (fun it => it.files.length) =
          st.series.map (fun it => it.files.length) ++
            (pats.map (fun p =>
              (p.studies.map (fun t =>
                t.series.map (fun x => x.images.length))).join)).join := by
  intro pats
  induction pats with
  | nil =>
    intro off dmap pIdx sIdx pRec stRec serRec st h0 hne1 hne2 hne3 hall hp hs hp0
    exact ⟨pRec, stRec, serRec, st, by simp [offRange, consumeKeys], by simp,
      by simp, by simp⟩
  | cons p rest ih =>
    intro off dmap pIdx sIdx pRec stRec serRec st h0 hne1 hne2 hne3 hall hp hs hp0
    have hstu : p.studies ≠ [] := hne1 p (List.mem_cons_self _ _)
    obtain ⟨j, hf, hj, hg⟩ := hall _ (List.mem_cons_self _ _)
    rw [if_neg hstu] at hg
    rw [if_neg (List.cons_ne_nil p rest)]
    rw [dirLoop_step_push items path rpd false dmap off stack pIdx sIdx pRec stRec
      serRec [] st capt h0 hf hj hg (Nat.succ_ne_zero off)]
    dsimp only []
    simp only [updRec, updFiles, strPP, strPSt, strPSe, if_true, if_false,
      false_or, true_or]
    have htailS : hasAll items (mapSet dmap off consumedMark)
        (encStudyChain (off + 1) p.studies) := by
      refine hasAll_mapSet (hasAll_sub hall ?_) ?_
      · exact fun r hr => List.mem_cons_of_mem _ (List.mem_append_left _ hr)
      · intro r hr
        have := (bo_bounds_of_offsets (encStudyChain_offsets p.studies (off + 1)) hr).1
        omega
    obtain ⟨stRec2, serRec2, st1, heqS, d1, d2, d3⟩ :=
      run_studyChainFirstNE items path rpd _ pIdx sIdx capt p.studies (off + 1)
        (mapSet dmap off consumedMark)
        ⟨off, if rest = [] then 0 else off + patientSize p, off + 1, "PATIENT", none⟩
        stRec serRec st hstu (Nat.succ_ne_zero off)
        (hne2 p (List.mem_cons_self _ _)) (hne3 p (List.mem_cons_self _ _))
        htailS hs (Or.inl hp) hp0
    rw [heqS, consume_fuse]
    rw [dirLoop_pop_patient]
    have htailP : hasAll items
        (consumeKeys (offRange off ((p.studies.map studySize).sum + 1)) dmap)
        (encPatientChain (off + patientSize p) rest) := by
      refine hasAll_consume (hasAll_sub hall ?_) ?_
      · exact fun r hr => List.mem_cons_of_mem _ (List.mem_append_right _ hr)
      · intro r hr
        have h1 := (bo_bounds_of_offsets
          (encPatientChain_offsets rest (off + patientSize p)) hr).1
        simp only [patientSize] at h1
        intro hmem
        have h2 := (mem_offRange _ _ _).1 hmem
        omega
    obtain ⟨pRec2, stRec3, serRec3, st2, heq2, e1, e2, e3⟩ := ih (off + patientSize p)
      (consumeKeys (offRange off ((p.studies.map studySize).sum + 1)) dmap)
      (pIdx + 1) (sIdx + (p.studies.length : Int))
      ⟨off, if rest = [] then 0 else off + patientSize p, off + 1, "PATIENT", none⟩
      stRec2 serRec2 st1
      (by simp only [patientSize]; omega)
      (fun x hx => hne1 x (List.mem_cons_of_mem _ hx))
      (fun x hx => hne2 x (List.mem_cons_of_mem _ hx))
      (fun x hx => hne3 x (List.mem_cons_of_mem _ hx))
      htailP (by rw [d1]; omega) (by rw [d2]; push_cast; omega) (by omega)
    rw [heq2]
    refine ⟨pRec2, stRec3, serRec3, st2, ?_, ?_, ?_, ?_⟩
    · conv_rhs =>
        rw [show (List.map patientSize (p :: rest)).sum =
            ((p.studies.map studySize).sum + 1) + (List.map patientSize rest).sum by
          simp [patientSize, Nat.add_comm]]
        rw [offRange_append, consumeKeys_append]
        rw [show off + ((p.studies.map studySize).sum + 1) = off + patientSize p by
          simp [patientSize, Nat.add_comm]]
        rw [show pIdx + ((p :: rest).length : Int) = pIdx + 1 + (rest.length : Int) by
          simp only [List.length_cons]
          push_cast
          ring]
        rw [show sIdx + ((List.map (fun p => p.studies.length) (p :: rest)).sum : Int) =
            sIdx + (p.studies.length : Int) +
              ((List.map (fun p => p.studies.length) rest).sum : Int) by
          simp only [List.map_cons, List.sum_cons]
          push_cast
          ring]
    · rw [e1, d1]
      simp only [List.length_cons]
      omega
    · rw [e2, d2]
      simp only [List.map_cons, List.sum_cons]
      omega
    · rw [e3, d3]
      simp [List.append_assoc]

theorem mapFind_buildMapAux_notMem :
    ∀ (its : List Rec) (i : Nat) (m : List (Nat × Nat)) (k : Nat),
      k ∉ its.map (fun r => r.byteOffset) →
      mapFind (buildMapAux i its m) k = mapFind m k := by
  intro its
  induction its with
  | nil => intro i m k h; rfl
  | cons a rest ih =>
    intro i m k h
    simp only [List.map_cons, List.mem_cons, not_or] at h
    simp only [buildMapAux]
    rw [ih (i + 1) _ k h.2, mapFind_mapSet_ne _ _ _ _ h.1]

theorem mapFind_buildMapAux_get :
    ∀ (its : List Rec) (i : Nat) (m : List (Nat × Nat)) (j : Nat) (r : Rec),
      its.get? j = some r →
      (its.map (fun x => x.byteOffset)).Nodup →
      mapFind (buildMapAux i its m) r.byteOffset = some (i + j) := by
  intro its
  induction its with
  | nil => intro i m j r h; cases h
  | cons a rest ih =>
    intro i m j r h hnd
    simp only [List.map_cons, List.nodup_cons] at hnd
    cases j with
    | zero =>
      have hra : a = r := by simpa using h
      subst hra
      simp only [buildMapAux]
      rw [mapFind_buildMapAux_notMem rest (i + 1) _ _ hnd.1, mapFind_mapSet_self,
        Nat.add_zero]
    | succ j =>
      have h' : rest.get? j = some r := by simpa using h
      simp only [buildMapAux]
      rw [ih (i + 1) _ j r h' hnd.2]
      congr 1
      omega

theorem hasAll_buildMap_of_perm (items recs : List Rec)
    (hperm : items.Perm recs)
    (hnd : (recs.map (fun r => r.byteOffset)).Nodup)
    (hlen : items.length ≤ consumedMark) :
    hasAll items (buildMap items) recs := by
  have hndI : (items.map (fun r => r.byteOffset)).Nodup :=
    (hperm.map (fun r => r.byteOffset)).nodup_iff.mpr hnd
  intro r hr
  have hrI : r ∈ items := hperm.mem_iff.mpr hr
  obtain ⟨j, hj⟩ := List.get?_of_mem hrI
  have hjlt : j < items.length := by
    obtain ⟨hlt, -⟩ := List.get?_eq_some.mp hj
    exact hlt
  refine ⟨j, ?_, by omega, hj⟩
  have := mapFind_buildMapAux_get items 0 [] j r hj hndI
  simpa [buildMap] using this

theorem join_replicate_replicate {α : Type} (x : α) (b : Nat) : ∀ (a : Nat),
    (List.replicate a (List.replicate b x)).join = List.replicate (a * b) x := by
  intro a
  induction a with
  | zero => simp
  | succ a ih =>
    simp only [List.replicate_succ, List.join_cons, ih, ← List.replicate_add]
    congr 1
    ring

/-- C4: for every record sequence that is a permutation of the well-formed
offset-linked encoding of a uniform forest of `P` patients, `S` studies per
patient, `N` series per study and `F` image records per series (all at least
one, with fewer records than the `0xffffffff` consumed marker), decoding via
`ProcessDirectoryFile` with no capture list starting from the empty store adds
exactly `P` patient entries, `P*S` study entries and `P*S*N` series entries,
each series entry holding exactly `F` file names — independent of the
physical order of the records. -/
theorem processDirectoryFile_uniform_counts
    (P S N F : Nat) (hP : 1 ≤ P) (hS : 1 ≤ S) (hN : 1 ≤ N) (hF : 1 ≤ F)
    (items : List Rec) (path : List String) (rpd : Bool)
    (hperm : items.Perm (encPatientChain 1 (uniformForest P S N F)))
    (hlen : items.length ≤ consumedMark) :
    (processDirectoryFile path rpd 1 items false (emptyState Rec)).1.patients.length = P ∧
    (processDirectoryFile path rpd 1 items false (emptyState Rec)).1.studies.length = P * S ∧
    (processDirectoryFile path rpd 1 items false (emptyState Rec)).1.series.length = P * S * N ∧
    ∀ it ∈ (processDirectoryFile path rpd 1 items false (emptyState Rec)).1.series,
      it.files.length = F := by
  have hne1 : ∀ p ∈ uniformForest P S N F, p.studies ≠ [] := by
    intro p hp
    rw [List.eq_of_mem_replicate hp]
    simp
    omega
  have hne2 : ∀ p ∈ uniformForest P S N F, ∀ t ∈ p.studies, t.series ≠ [] := by
    intro p hp t ht
    rw [List.eq_of_mem_replicate hp] at ht
    simp only at ht
    rw [List.eq_of_mem_replicate ht]
    simp
    omega
  have hne3 : ∀ p ∈ uniformForest P S N F, ∀ t ∈ p.studies, ∀ x ∈ t.series,
      x.images ≠ [] := by
    intro p hp t ht x hx
    rw [List.eq_of_mem_replicate hp] at ht
    simp only at ht
    rw [List.eq_of_mem_replicate ht] at hx
    simp only at hx
    rw [List.eq_of_mem_replicate hx]
    simp
    omega
  have hfne : uniformForest P S N F ≠ [] := by
    simp [uniformForest]
    omega
  have hall : hasAll items (buildMap items)
      (encPatientChain 1 (uniformForest P S N F)) := by
    refine hasAll_buildMap_of_perm items _ hperm ?_ hlen
    rw [encPatientChain_offsets]
    exact offRange_nodup 1 _
  obtain ⟨pRec2, stRec2, serRec2, st2, heq, e1, e2, e3⟩ :=
    run_patientChain items path rpd [] [] (uniformForest P S N F) 1
      (buildMap items)
      ((emptyState Rec).patients.length : Int) ((emptyState Rec).studies.length : Int)
      (items.getD 0 defaultRec) (items.getD 0 defaultRec) (items.getD 0 defaultRec)
      (emptyState Rec) one_ne_zero hne1 hne2 hne3 hall rfl rfl (by simp)
  rw [if_neg hfne, dirLoop_terminal] at heq
  have hmain : (processDirectoryFile path rpd 1 items false (emptyState Rec)).1 = st2 := by
    unfold processDirectoryFile
    rw [if_neg (by simp), heq]
  have hjoin : (uniformForest P S N F).map (fun p =>
      (p.studies.map (fun t => t.series.map (fun x => x.images.length))).join) =
      List.replicate P (List.replicate (S * N) F) := by
    simp [uniformForest, List.map_replicate, join_replicate_replicate]
  have e3' : st2.series.map (fun it => it.files.length) =
      List.replicate (P * S * N) F := by
    rw [e3, hjoin]
    simp [emptyState, join_replicate_replicate, Nat.mul_assoc]
  refine ⟨?_, ?_, ?_, ?_⟩
  · rw [hmain, e1]
    simp [emptyState, uniformForest]
  · rw [hmain, e2]
    simp [emptyState, uniformForest, List.map_replicate, List.sum_replicate,
      smul_eq_mul]
  · rw [hmain]
    have hl := congrArg List.length e3'
    simpa using hl
  · intro it hit
    rw [hmain] at hit
    have hm : it.files.length ∈ st2.series.map (fun it => it.files.length) :=
      List.mem_map_of_mem _ hit
    rw [e3'] at hm
    exact List.eq_of_mem_replicate hm

/-- Witness for C4 at P = S = N = F = 1. -/
theorem processDirectoryFile_uniform_counts_witness :
    (processDirectoryFile ["d"] false 1 (encPatientChain 1 (uniformForest 1 1 1 1))
        false (emptyState Rec)).1.patients.length = 1 ∧
    (processDirectoryFile ["d"] false 1 (encPatientChain 1 (uniformForest 1 1 1 1))
        false (emptyState Rec)).1.studies.length = 1 * 1 ∧
    (processDirectoryFile ["d"] false 1 (encPatientChain 1 (uniformForest 1 1 1 1))
        false (emptyState Rec)).1.series.length = 1 * 1 * 1 ∧
    ∀ it ∈ (processDirectoryFile ["d"] false 1
        (encPatientChain 1 (uniformForest 1 1 1 1)) false (emptyState Rec)).1.series,
      it.files.length = 1 :=
  processDirectoryFile_uniform_counts 1 1 1 1 (le_refl 1) (le_refl 1) (le_refl 1)
    (le_refl 1) (encPatientChain 1 (uniformForest 1 1 1 1)) ["d"] false
    (List.Perm.refl _) (by decide)

/-- C4 counterexample: for `P = S = N = 1` and `F = 0` the claim promises one
patient, one study and one (empty) series entry, but a series with zero image
records has no child record, its SERIES frame is never pushed or popped, and
the decoder adds nothing at all to the store. -/
theorem processDirectoryFile_zero_files_counterexample :
    (processDirectoryFile ["d"] false 1 (encPatientChain 1 (uniformForest 1 1 1 0))
        false (emptyState Rec)).1 = emptyState Rec := by
  have hr1 : (encPatientChain 1 (uniformForest 1 1 1 0)).get? 0 =
      some (⟨1, 0, 2, "PATIENT", none⟩ : Rec) := rfl
  have hr2 : (encPatientChain 1 (uniformForest 1 1 1 0)).get? 1 =
      some (⟨2, 0, 3, "STUDY", none⟩ : Rec) := rfl
  have hr3 : (encPatientChain 1 (uniformForest 1 1 1 0)).get? 2 =
      some (⟨3, 0, 0, "SERIES", none⟩ : Rec) := rfl
  have hf1 : mapFind [(1, 0), (2, 1), (3, 2)] 1 = some 0 := rfl
  have hf2 : mapFind (mapSet [(1, 0), (2, 1), (3, 2)] 1 consumedMark) 2 =
      some 1 := rfl
  have hf3 : mapFind (mapSet (mapSet [(1, 0), (2, 1), (3, 2)] 1 consumedMark) 2
      consumedMark) 3 = some 2 := rfl
  unfold processDirectoryFile
  rw [if_neg (by simp)]
  rw [show ((emptyState Rec).patients.length : Int) = 0 from rfl]
  rw [show ((emptyState Rec).studies.length : Int) = 0 from rfl]
  rw [show (encPatientChain 1 (uniformForest 1 1 1 0)).getD 0 defaultRec =
    ⟨1, 0, 2, "PATIENT", none⟩ from rfl]
  rw [show buildMap (encPatientChain 1 (uniformForest 1 1 1 0)) =
    [(1, 0), (2, 1), (3, 2)] from rfl]
  rw [dirLoop_step_push (encPatientChain 1 (uniformForest 1 1 1 0)) ["d"] false false
    [(1, 0), (2, 1), (3, 2)] 1 [] 0 0 ⟨1, 0, 2, "PATIENT", none⟩
    ⟨1, 0, 2, "PATIENT", none⟩ ⟨1, 0, 2, "PATIENT", none⟩ [] (emptyState Rec) []
    (by decide) hf1 (by decide) hr1 (by decide)]
  simp only [updRec, updFiles, strPP, strPSt, strPSe, if_true, if_false,
    false_or, true_or]
  try dsimp only []
  rw [dirLoop_step_push (encPatientChain 1 (uniformForest 1 1 1 0)) ["d"] false false
    (mapSet [(1, 0), (2, 1), (3, 2)] 1 consumedMark) 2 [(0, "PATIENT")] 0 0
    ⟨1, 0, 2, "PATIENT", none⟩ ⟨1, 0, 2, "PATIENT", none⟩ ⟨1, 0, 2, "PATIENT", none⟩
    [] (emptyState Rec) [] (by decide) hf2 (by decide) hr2 (by decide)]
  simp only [updRec, updFiles, strStP, strStSt, strStSe, if_true, if_false,
    false_or, true_or]
  try dsimp only []
  rw [dirLoop_step_leaf (encPatientChain 1 (uniformForest 1 1 1 0)) ["d"] false false
    (mapSet (mapSet [(1, 0), (2, 1), (3, 2)] 1 consumedMark) 2 consumedMark) 3
    [(0, "STUDY"), (0, "PATIENT")] 0 0 ⟨1, 0, 2, "PATIENT", none⟩
    ⟨2, 0, 3, "STUDY", none⟩ ⟨1, 0, 2, "PATIENT", none⟩ [] (emptyState Rec) []
    (by decide) hf3 (by decide) hr3 rfl]
  simp only [updRec, updFiles, strSeP, strSeSt, strSeSe, if_true, if_false,
    false_or, or_true]
  try dsimp only []
  rw [dirLoop_pop_study, dirLoop_pop_patient, dirLoop_terminal]


end DicomDir
